import Mathlib

/-!
# Verification of the Fedora-to-Drupal migration tool

A shallow embedding, in Lean 4, of the core of the `migration` Rust
program (stage-1 staging of a Fedora Commons 3 repository and stage-2
CSV projection), together with theorems settling the specification
claims about it.

Conventions used throughout:

* Rust panics (`unwrap`, `expect`, `unimplemented!`, indexing that can
  fail) are modelled with `Except String`: a `.error` value means the
  program aborts at that point.
* Machine integers are modelled with `Nat`/`Int`; none of the verified
  claims depend on overflow behaviour.
* File-system access is modelled by passing the relevant file contents
  (or parse results) as explicit arguments.
* `chrono` date values are carried as opaque strings: no verified claim
  inspects a date.
* Definitions whose doc comment starts with `Modelled from the spec:`
  correspond to code that is not part of the given sources (an external
  crate, or repository code only referenced by callers in the sources);
  they follow the specification's words.
-/

/-- Decidable equality for `Except` (used to evaluate the embedding on
concrete inputs). -/
instance {ε α} [DecidableEq ε] [DecidableEq α] : DecidableEq (Except ε α) := fun x y =>
  match x, y with
  | .error e, .error f =>
    if h : e = f then .isTrue (by rw [h])
    else .isFalse (fun hc => by cases hc; exact h rfl)
  | .error _, .ok _ => .isFalse (fun hc => by cases hc)
  | .ok _, .error _ => .isFalse (fun hc => by cases hc)
  | .ok a, .ok b =>
    if h : a = b then .isTrue (by rw [h])
    else .isFalse (fun hc => by cases hc; exact h rfl)

/-! ## Ordering utilities

The Rust code orders PIDs, datastream ids, version ids, parents and
script rows.  `cmpNat`/`cmpChar` model `Ord` on integers and `char`
(code-point order); `lexCompare` models the derived lexicographic `Ord`
on sequences (Rust `Vec<T>`/`str`).
-/

/-- Three-way comparison on `Nat` (Rust `Ord for usize`/numeric compare). -/
def cmpNat (a b : Nat) : Ordering :=
  if a < b then .lt else if b < a then .gt else .eq

/-- Three-way comparison on `Char` by code point (Rust `Ord for char`). -/
def cmpChar (a b : Char) : Ordering :=
  cmpNat a.toNat b.toNat

/-- Lexicographic comparison of sequences given an element comparison;
models Rust's derived `Ord` for slices and `Vec` (shorter prefix sorts
first). -/
def lexCompare (f : α → α → Ordering) : List α → List α → Ordering
  | [], [] => .eq
  | [], _ :: _ => .lt
  | _ :: _, [] => .gt
  | a :: as, b :: bs =>
    match f a b with
    | .eq => lexCompare f as bs
    | o => o

/-- Rust `Ord for String`: byte-wise lexicographic order on the UTF-8
encoding, which coincides with code-point lexicographic order. -/
def strCompare (a b : String) : Ordering :=
  lexCompare cmpChar a.toList b.toList

/-- Rust `Ord for Vec<String>` (lexicographic), used by the
`BTreeSet<Vec<String>>` that de-duplicates script rows. -/
def rowCompare (a b : List String) : Ordering :=
  lexCompare strCompare a b

/-- Numeric value of a run of decimal digit characters. -/
def digitsVal (l : List Char) : Nat :=
  l.foldl (fun a c => a * 10 + (c.toNat - '0'.toNat)) 0

/-- Modelled from the spec: the comparator of the external
`alphanumeric_sort` crate (`compare_str`), whose source is not part of
this repository.  The spec describes it as "alphanumeric (digits
compared as numbers, so `item:10` sorts after `item:2`)": maximal runs
of ASCII digits are compared by numeric value, all other characters by
code point. -/
def anCompareAux : Nat → List Char → List Char → Ordering
  | _, [], [] => .eq
  | _, [], _ :: _ => .lt
  | _, _ :: _, [] => .gt
  | 0, _ :: _, _ :: _ => .eq
  | fuel + 1, a :: as, b :: bs =>
    if a.isDigit && b.isDigit then
      match cmpNat (digitsVal ((a :: as).takeWhile Char.isDigit))
                   (digitsVal ((b :: bs).takeWhile Char.isDigit)) with
      | .eq => anCompareAux fuel ((a :: as).dropWhile Char.isDigit)
                                 ((b :: bs).dropWhile Char.isDigit)
      | o => o
    else
      match cmpChar a b with
      | .eq => anCompareAux fuel as bs
      | o => o

/-- Modelled from the spec (continued): the comparator, with enough
fuel that the zero-fuel branch of `anCompareAux` is never taken (every
recursive step removes at least one character from each side). -/
def alphanumCompare (a b : List Char) : Ordering :=
  anCompareAux (a.length + b.length) a b

/-- `alphanumeric_sort::compare_str` on `String`s. -/
def alphanumCompareStr (a b : String) : Ordering :=
  alphanumCompare a.toList b.toList

/-! ## RELS-EXT parsing (`src/csv/object.rs`, `RelsExt`)

`RelsExt::process_element` dispatches on the qualified element name.
The streaming reader is modelled by presenting each start/empty element
as an `XmlStartElement` carrying its attributes and the first
non-whitespace text event that `RelsExt::get_text` would return
(`none` when the document ends before such a text event, which makes
`get_text` panic).
-/

/-- Rust `str::parse::<usize>` (as used on the islandora integer
predicates): an optional leading `+` followed by one or more ASCII
digits; anything else fails.  Overflow is not modelled (no claim
depends on it). -/
def parseUsize (s : String) : Option Nat :=
  let t := match s.toList with
           | '+' :: rest => rest
           | cs => cs
  if t ≠ [] && t.all Char.isDigit then
    some (digitsVal t)
  else
    none

/-- Modelled from the spec (for comparison with the code): "strip all
non-digit characters, parse as signed integer (may be `None`)", the
lenient behaviour the spec adopts for `isPageNumber`, `isSection` and
`isSequenceNumber`. -/
def lenientParseInt (s : String) : Option Int :=
  let ds := s.toList.filter Char.isDigit
  if ds.isEmpty then none else some (digitsVal ds : Nat)

/-- Rust `str::parse::<bool>`: exactly `"true"` or `"false"`. -/
def parseBool (s : String) : Option Bool :=
  if s = "true" then some true else if s = "false" then some false else none

/-- The parsed view of one object's RELS-EXT datastream
(`struct RelsExt`). -/
structure RelsExt where
  about : String := ""
  hasModel : List String := []
  fedoraRelationship : List String := []
  hasAnnotation : List String := []
  hasCollectionMember : List String := []
  hasConstituent : List String := []
  hasDependent : List String := []
  hasDerivation : List String := []
  hasDescription : List String := []
  hasEquivalent : List String := []
  hasMember : List String := []
  hasMetadata : List String := []
  hasPart : List String := []
  hasSubset : List String := []
  isAnnotationOf : List String := []
  isConstituentOf : List String := []
  isDependentOf : List String := []
  isDerivationOf : List String := []
  isDescriptionOf : List String := []
  isMemberOf : List String := []
  isMemberOfCollection : List String := []
  isMetadataFor : List String := []
  isPartOf : List String := []
  isSubsetOf : List String := []
  deferDerivatives : Option Bool := none
  generateHOCR : Option Bool := none
  generateOCR : Option Bool := none
  isPageNumber : Option Nat := none
  isPageOf : Option String := none
  isSection : Option Nat := none
  isSequenceNumber : Option Nat := none
  isSequenceNumberOf : List (String × Nat) := []
deriving Repr, DecidableEq

/-- A start (or empty) element event as seen by
`RelsExt::process_element`: qualified name, attributes, and the text
that a subsequent `get_text` would yield (`none` = end of file before
any non-whitespace text, a panic in `get_text`). -/
structure XmlStartElement where
  name : String
  attributes : List (String × String)
  text : Option String := none
deriving Repr, DecidableEq

/-- `RelsExt::get_attribute`: first attribute with the given name. -/
def getAttribute (e : XmlStartElement) (name : String) : Option String :=
  (e.attributes.find? (fun a => a.1 = name)).map Prod.snd

/-- `RelsExt::get_attribute_without_prefix`: the attribute value with
the first `PREFIX_LENGTH = "info:fedora/".len() = 12` bytes sliced off;
panics when the attribute is missing.  (The byte slice is modelled as a
character drop; all values in scope are ASCII `info:fedora/...` URIs.) -/
def getAttributeWithoutPfx (e : XmlStartElement) (name : String) : Except String String :=
  match getAttribute e name with
  | some v => .ok (String.mk (v.toList.drop 12))
  | none => .error "get_attribute_without_prefix: missing attribute"

/-- `RelsExt::get_resource_attribute`. -/
def getResourceAttribute (e : XmlStartElement) : Except String String :=
  getAttributeWithoutPfx e "rdf:resource"

/-- `RelsExt::get_text`, panicking at end of file. -/
def getText (e : XmlStartElement) : Except String String :=
  match e.text with
  | some t => .ok t
  | none => .error "get_text: reached Eof"

/-- quick-xml `BytesStart::local_name`: the part of the qualified name
after the first `:` (the whole name when there is no `:`). -/
def localName (s : String) : String :=
  match s.toList.splitOn ':' with
  | [] => s
  | [_] => s
  | _ :: rest => String.mk ((rest.intersperse [':']).flatten)

/-- Strip `p` from the front of `s`, if it is a prefix
(Rust `str::strip_prefix`). -/
def stripPfx (p s : List Char) : Option (List Char) :=
  match p, s with
  | [], s => some s
  | _ :: _, [] => none
  | a :: ps, b :: ss => if a = b then stripPfx ps ss else none

/-- Rust `str::replacen(pat, to, 1)` for a single-character pattern:
replace the first occurrence only. -/
def replaceFirst (s : List Char) (pat rep : Char) : List Char :=
  match s with
  | [] => []
  | c :: cs => if c = pat then rep :: cs else c :: replaceFirst cs pat rep

/-- `RelsExt::is_sequence_number_of`: if the element's local name
starts with `isSequenceNumberOf`, the rest (first `_` replaced by `:`)
is the compound parent pid and the inner text is parsed (strictly) as
an integer, panicking on failure. -/
def isSequenceNumberOfElement (e : XmlStartElement) :
    Except String (Option (String × Nat)) :=
  match stripPfx "isSequenceNumberOf".toList (localName e.name).toList with
  | some pidPart => do
    let pid := String.mk (replaceFirst pidPart '_' ':')
    let text ← getText e
    match parseUsize text with
    | some n => .ok (some (pid, n))
    | none => .error "is_sequence_number_of: text.parse().unwrap() failed"
  | none => .ok none

/-- `RelsExt::process_element`: dispatch on the qualified element name
and update the `RelsExt` under construction.  A `.error` result is a
panic in the Rust code (`unwrap` on a failed parse or missing
attribute). -/
def processElement (r : RelsExt) (e : XmlStartElement) : Except String RelsExt :=
  if e.name = "rdf:Description" then do
    let v ← getAttributeWithoutPfx e "rdf:about"
    .ok { r with about := v }
  else if e.name = "fedora-model:hasModel" then do
    let v ← getResourceAttribute e
    .ok { r with hasModel := r.hasModel ++ [v] }
  else if e.name = "fedora:fedoraRelationship" then do
    let v ← getResourceAttribute e
    .ok { r with fedoraRelationship := r.fedoraRelationship ++ [v] }
  else if e.name = "fedora:isPartOf" then do
    let v ← getResourceAttribute e
    .ok { r with isPartOf := r.isPartOf ++ [v] }
  else if e.name = "fedora:hasPart" then do
    let v ← getResourceAttribute e
    .ok { r with hasPart := r.hasPart ++ [v] }
  else if e.name = "fedora:isConstituentOf" then do
    let v ← getResourceAttribute e
    .ok { r with isConstituentOf := r.isConstituentOf ++ [v] }
  else if e.name = "fedora:hasConstituent" then do
    let v ← getResourceAttribute e
    .ok { r with hasConstituent := r.hasConstituent ++ [v] }
  else if e.name = "fedora:isMemberOf" then do
    let v ← getResourceAttribute e
    .ok { r with isMemberOf := r.isMemberOf ++ [v] }
  else if e.name = "fedora:hasMember" then do
    let v ← getResourceAttribute e
    .ok { r with hasMember := r.hasMember ++ [v] }
  else if e.name = "fedora:isSubsetOf" then do
    let v ← getResourceAttribute e
    .ok { r with isSubsetOf := r.isSubsetOf ++ [v] }
  else if e.name = "fedora:hasSubset" then do
    let v ← getResourceAttribute e
    .ok { r with hasSubset := r.hasSubset ++ [v] }
  else if e.name = "fedora:isMemberOfCollection" then do
    let v ← getResourceAttribute e
    .ok { r with isMemberOfCollection := r.isMemberOfCollection ++ [v] }
  else if e.name = "fedora:hasCollectionMember" then do
    let v ← getResourceAttribute e
    .ok { r with hasCollectionMember := r.hasCollectionMember ++ [v] }
  else if e.name = "fedora:isDerivationOf" then do
    let v ← getResourceAttribute e
    .ok { r with isDerivationOf := r.isDerivationOf ++ [v] }
  else if e.name = "fedora:hasDerivation" then do
    let v ← getResourceAttribute e
    .ok { r with hasDerivation := r.hasDerivation ++ [v] }
  else if e.name = "fedora:isDependentOf" then do
    let v ← getResourceAttribute e
    .ok { r with isDependentOf := r.isDependentOf ++ [v] }
  else if e.name = "fedora:hasDependent" then do
    let v ← getResourceAttribute e
    .ok { r with hasDependent := r.hasDependent ++ [v] }
  else if e.name = "fedora:isDescriptionOf" then do
    let v ← getResourceAttribute e
    .ok { r with isDescriptionOf := r.isDescriptionOf ++ [v] }
  else if e.name = "fedora:hasDescription" then do
    let v ← getResourceAttribute e
    .ok { r with hasDescription := r.hasDescription ++ [v] }
  else if e.name = "fedora:isMetadataFor" then do
    let v ← getResourceAttribute e
    .ok { r with isMetadataFor := r.isMetadataFor ++ [v] }
  else if e.name = "fedora:hasMetadata" then do
    let v ← getResourceAttribute e
    .ok { r with hasMetadata := r.hasMetadata ++ [v] }
  else if e.name = "fedora:isAnnotationOf" then do
    let v ← getResourceAttribute e
    .ok { r with isAnnotationOf := r.isAnnotationOf ++ [v] }
  else if e.name = "fedora:hasAnnotation" then do
    let v ← getResourceAttribute e
    .ok { r with hasAnnotation := r.hasAnnotation ++ [v] }
  else if e.name = "fedora:hasEquivalent" then do
    let v ← getResourceAttribute e
    .ok { r with hasEquivalent := r.hasEquivalent ++ [v] }
  else if e.name = "islandora:deferDerivatives" then do
    let t ← getText e
    match parseBool t.toLower with
    | some b => .ok { r with deferDerivatives := some b }
    | none => .error "deferDerivatives: text.parse().unwrap() failed"
  else if e.name = "islandora:generate_hocr" then do
    let t ← getText e
    match parseBool t.toLower with
    | some b => .ok { r with generateHOCR := some b }
    | none => .error "generate_hocr: text.parse().unwrap() failed"
  else if e.name = "islandora:generate_ocr" then do
    let t ← getText e
    match parseBool t.toLower with
    | some b => .ok { r with generateOCR := some b }
    | none => .error "generate_ocr: text.parse().unwrap() failed"
  else if e.name = "islandora:isPageNumber" then do
    let t ← getText e
    match parseUsize t with
    | some n => .ok { r with isPageNumber := some n }
    | none => .error "isPageNumber: text.parse().unwrap() failed"
  else if e.name = "islandora:isPageOf" then do
    let v ← getResourceAttribute e
    .ok { r with isPageOf := some v }
  else if e.name = "islandora:isSection" then do
    let t ← getText e
    match parseUsize t with
    | some n => .ok { r with isSection := some n }
    | none => .error "isSection: text.parse().unwrap() failed"
  else if e.name = "islandora:isSequenceNumber" then do
    let t ← getText e
    match parseUsize t with
    | some n => .ok { r with isSequenceNumber := some n }
    | none => .error "isSequenceNumber: text.parse().unwrap() failed"
  else do
    match ← isSequenceNumberOfElement e with
    | some sn => .ok { r with isSequenceNumberOf := r.isSequenceNumberOf ++ [sn] }
    | none => .ok r

/-! ## Stable sorting (Rust `slice::sort_by`)

The Rust code sorts datastreams, versions, parents and script rows with
`sort_by` (a stable sort).  `sortOrd` is a stable insertion sort: an
element is inserted before the first position it need not follow. -/

/-- Insert `x` into `l`, passing every element `y` with
`cmp x y = .gt`. -/
def insOrd (cmp : α → α → Ordering) (x : α) : List α → List α
  | [] => [x]
  | y :: ys => if cmp x y = .gt then y :: insOrd cmp x ys else x :: y :: ys

/-- Stable sort by a three-way comparison (models Rust `sort_by`). -/
def sortOrd (cmp : α → α → Ordering) : List α → List α
  | [] => []
  | x :: xs => insOrd cmp x (sortOrd cmp xs)

/-! ## FOXML (`src/foxml/lib.rs`) -/

/-- A FOXML parse failure (`FoxmlError`), carried opaquely. -/
abbrev FoxmlError := String

/-- `FoxmlObjectState`. -/
inductive FoxmlObjectState where
  | Active
  | Inactive
  | Deleted
deriving Repr, DecidableEq

/-- `FoxmlDatastreamState`. -/
inductive FoxmlDatastreamState where
  | A
  | I
  | D
deriving Repr, DecidableEq

/-- `FoxmlControlGroup`: external (E), redirect (R), managed (M),
inline XML (X). -/
inductive FoxmlControlGroup where
  | E
  | R
  | M
  | X
deriving Repr, DecidableEq

/-- `FoxmlProperty`: one NAME/VALUE pair of `objectProperties`. -/
structure FoxmlProperty where
  name : String
  value : String
deriving Repr, DecidableEq

/-- `FoxmlDatastreamVersion` (the fields the CSV pipeline reads; the
`CREATED` date is carried as an opaque string, `SIZE`, `FORMAT_URI` and
the content list are unused downstream). -/
structure FoxmlDatastreamVersion where
  id : String
  label : String
  created : String
  mimeType : String
deriving Repr, DecidableEq

/-- `FoxmlDatastream`. -/
structure FoxmlDatastream where
  id : String
  state : FoxmlDatastreamState
  controlGroup : FoxmlControlGroup
  versions : List FoxmlDatastreamVersion
deriving Repr, DecidableEq

/-- `Foxml`: pid, object properties, datastreams. -/
structure Foxml where
  pid : String
  properties : List FoxmlProperty
  datastreams : List FoxmlDatastream
deriving Repr, DecidableEq

/-- `FoxmlObjectProperties::property`: looked up by name, panicking
when absent. -/
def Foxml.property (f : Foxml) (name : String) : Except String String :=
  match f.properties.find? (fun x => x.name = name) with
  | some p => .ok p.value
  | none => .error "Failed to find required property"

/-- `FoxmlObjectProperties::state`, parsed with `FromStr` (panics on an
unknown value). -/
def Foxml.state (f : Foxml) : Except String FoxmlObjectState := do
  let s ← f.property "info:fedora/fedora-system:def/model#state"
  if s = "Active" then .ok .Active
  else if s = "Inactive" then .ok .Inactive
  else if s = "Deleted" then .ok .Deleted
  else .error "FoxmlObjectState::from_str failed"

/-- `FoxmlObjectProperties::label`. -/
def Foxml.label (f : Foxml) : Except String String :=
  f.property "info:fedora/fedora-system:def/model#label"

/-- `FoxmlObjectProperties::owner_id`. -/
def Foxml.ownerId (f : Foxml) : Except String String :=
  f.property "info:fedora/fedora-system:def/model#ownerId"

/-- `FoxmlObjectProperties::created_date` (the RFC 3339 text, carried
opaquely). -/
def Foxml.createdDate (f : Foxml) : Except String String :=
  f.property "info:fedora/fedora-system:def/model#createdDate"

/-- `FoxmlObjectProperties::modified_date` (the RFC 3339 text, carried
opaquely). -/
def Foxml.modifiedDate (f : Foxml) : Except String String :=
  f.property "info:fedora/fedora-system:def/view#lastModifiedDate"

/-! ## The object graph (`src/csv/object.rs`) -/

/-- `ObjectState` (strum `AsStaticStr` renders the variant name). -/
inductive ObjectState where
  | Active
  | Inactive
  | Deleted
deriving Repr, DecidableEq

/-- `From<FoxmlObjectState> for ObjectState`. -/
def ObjectState.ofFoxml : FoxmlObjectState → ObjectState
  | .Active => .Active
  | .Inactive => .Inactive
  | .Deleted => .Deleted

/-- `ObjectState::as_static`. -/
def ObjectState.asStatic : ObjectState → String
  | .Active => "Active"
  | .Inactive => "Inactive"
  | .Deleted => "Deleted"

/-- `DatastreamState`. -/
inductive DatastreamState where
  | Active
  | Inactive
  | Deleted
deriving Repr, DecidableEq

/-- `From<FoxmlDatastreamState> for DatastreamState`. -/
def DatastreamState.ofFoxml : FoxmlDatastreamState → DatastreamState
  | .A => .Active
  | .I => .Inactive
  | .D => .Deleted

/-- `DatastreamIdentifier`: keys of the datastream path map. -/
structure DatastreamIdentifier where
  pid : String
  dsid : String
  version : String
deriving Repr, DecidableEq

/-- `DatastreamMap`: content identifiers to file paths
(`HashMap<DatastreamIdentifier, Box<Path>>`; paths are strings). -/
abbrev DatastreamMap := List (DatastreamIdentifier × String)

/-- `HashMap::get` on the datastream map. -/
def DatastreamMap.get? (m : DatastreamMap) (k : DatastreamIdentifier) : Option String :=
  (m.find? (fun e => e.1 = k)).map Prod.snd

/-- `DatastreamVersion` (`created_date` carried as an opaque string). -/
structure DatastreamVersion where
  id : String
  label : String
  createdDate : String
  mimeType : String
  path : String
deriving Repr, DecidableEq

/-- `Datastream`. -/
structure Datastream where
  id : String
  state : DatastreamState
  versions : List DatastreamVersion
deriving Repr, DecidableEq

/-- `Datastream::latest`: `versions.last().unwrap()`; `none` models the
panic on an empty version list. -/
def Datastream.latest? (d : Datastream) : Option DatastreamVersion :=
  d.versions.getLast?

/-- The `USER_MAP` substitution: `fedoraAdmin` becomes `admin`, every
other owner is kept. -/
def userMap (owner : String) : String :=
  if owner = "fedoraAdmin" then "admin" else owner

/-- `Object` (the `weight` field is Modelled from the spec: the copy of
`object.rs` in the sources predates it, but `rows.rs` reads
`object.weight`; per the spec it is an optional integer selected from
the RELS-EXT). -/
structure Object where
  pid : String
  state : ObjectState
  owner : String
  label : String
  model : String
  parents : List String
  weight : Option Nat
  createdDate : String
  modifiedDate : String
  datastreams : List Datastream
deriving Repr, DecidableEq

/-- `Object::is_system_object`. -/
def Object.isSystemObject (o : Object) : Bool :=
  o.pid.startsWith "fedora-system:"

/-- `Object::is_content_model`. -/
def Object.isContentModel (o : Object) : Bool :=
  o.model = "fedora-system:ContentModel-3.0"

/-- `Object::model`: the first `hasModel` value, panicking when the
list is empty. -/
def Object.modelOf (r : RelsExt) : Except String String :=
  match r.hasModel.head? with
  | some m => .ok m
  | none => .error "rels_ext.hasModel.first().unwrap() failed"

/-- `Object::parents`: the concatenation of the ten parent predicate
lists, sorted alphanumerically. -/
def Object.parentsOf (r : RelsExt) : List String :=
  sortOrd alphanumCompareStr
    (r.isPartOf ++ r.isConstituentOf ++ r.isMemberOf ++ r.isSubsetOf ++
     r.isMemberOfCollection ++ r.isDerivationOf ++ r.isDependentOf ++
     r.isDescriptionOf ++ r.isMetadataFor ++ r.isAnnotationOf)

/-- Modelled from the spec: weight selection "prefers `isPageNumber`,
falls back to `isSequenceNumber`, then the first `isSequenceNumberOf`
tuple's integer" (`weight = isPageNumber ?? isSequenceNumber ??
isSequenceNumberOf[0].1`); the computing code is absent from the given
sources. -/
def Object.weightOf (r : RelsExt) : Option Nat :=
  (r.isPageNumber.or (r.isSequenceNumber.or (r.isSequenceNumberOf.head?.map Prod.snd)))

/-- `Object::rels_ext`: find the `RELS-EXT` datastream (panic when
absent), take its last version (panic when none), refuse `E`/`R`
control groups (`unimplemented!`), look up the staged path (panic when
absent) and parse the file.  `relsParse` models
`RelsExt::from_path`: the parse outcome for each path (`none` = the
`expect("Failed to parse RELS-EXT")` panic). -/
def Object.relsExtOf (foxml : Foxml) (dsPaths : DatastreamMap)
    (relsParse : String → Option RelsExt) : Except String RelsExt := do
  match foxml.datastreams.find? (fun d => d.id = "RELS-EXT") with
  | none => .error "find RELS-EXT datastream: unwrap failed"
  | some relsExt =>
    match relsExt.versions.getLast? with
    | none => .error "rels_ext.versions.last().unwrap() failed"
    | some lastVersion =>
      let identifier : DatastreamIdentifier :=
        { pid := foxml.pid, dsid := relsExt.id, version := lastVersion.id }
      match relsExt.controlGroup with
      | .E | .R => .error "unimplemented control group"
      | .M | .X =>
        match dsPaths.get? identifier with
        | none => .error "datastream_paths.get(&identifier).unwrap() failed"
        | some path =>
          match relsParse path with
          | some r => .ok r
          | none => .error "Failed to parse RELS-EXT"

/-- `Object::create_datastream`: build the version list (path lookups
panic when absent) and sort it by version id. -/
def Object.createDatastream (pid : String) (datastream : FoxmlDatastream)
    (dsPaths : DatastreamMap) : Except String Datastream := do
  let versions ← datastream.versions.mapM (fun version => do
    let identifier : DatastreamIdentifier :=
      { pid := pid, dsid := datastream.id, version := version.id }
    match dsPaths.get? identifier with
    | none => .error "datastream_paths.get(&identifier).unwrap() failed"
    | some path =>
      .ok { id := version.id, label := version.label,
            createdDate := version.created, mimeType := version.mimeType,
            path := path : DatastreamVersion })
  .ok { id := datastream.id, state := DatastreamState.ofFoxml datastream.state,
        versions := sortOrd (fun a b => alphanumCompareStr a.id b.id) versions }

/-- `Object::new`: read the RELS-EXT, derive owner/label/model/parents
(and, per the spec, the weight), convert every datastream
(`unimplemented!` on control groups `E`/`R`), and sort the datastreams
by id. -/
def Object.new (foxml : Foxml) (dsPaths : DatastreamMap)
    (relsParse : String → Option RelsExt) : Except String Object := do
  let relsExt ← Object.relsExtOf foxml dsPaths relsParse
  let ownerId ← foxml.ownerId
  let label ← foxml.label
  let model ← Object.modelOf relsExt
  let createdDate ← foxml.createdDate
  let modifiedDate ← foxml.modifiedDate
  let state ← foxml.state
  let datastreams ← foxml.datastreams.mapM (fun datastream =>
    match datastream.controlGroup with
    | .E | .R => (.error "unimplemented control group" : Except String Datastream)
    | .M | .X => Object.createDatastream foxml.pid datastream dsPaths)
  .ok { pid := foxml.pid,
        owner := userMap ownerId,
        label := label,
        model := model,
        parents := Object.parentsOf relsExt,
        weight := Object.weightOf relsExt,
        createdDate := createdDate,
        modifiedDate := modifiedDate,
        state := ObjectState.ofFoxml state,
        datastreams := sortOrd (fun a b => alphanumCompareStr a.id b.id) datastreams }

/-! ## The object map (`ObjectMap`, a `BTreeMap<Pid, Object>`) -/

/-- `BTreeMap::insert` into a key-sorted association list: keys are
ordered by `cmp`; when an equal key exists its value is updated and the
existing key kept. -/
def insertB (cmp : κ → κ → Ordering) (k : κ) (v : ν) :
    List (κ × ν) → List (κ × ν)
  | [] => [(k, v)]
  | (k', v') :: rest =>
    match cmp k k' with
    | .lt => (k, v) :: (k', v') :: rest
    | .eq => (k', v) :: rest
    | .gt => (k', v') :: insertB cmp k v rest

/-- Collect key/value pairs into a `BTreeMap` (sorted association
list). -/
def mapFromList (cmp : κ → κ → Ordering) (l : List (κ × ν)) : List (κ × ν) :=
  l.foldl (fun m e => insertB cmp e.1 e.2 m) []

/-- The per-path closure of `ObjectMap::from_path`:
`Object::from_path` forwards a FOXML deserialization failure as
`Err(FoxmlError)` (the inner value), while a panic inside
`Object::new` aborts the run (the outer `.error`). -/
def objectResult (parse : Except FoxmlError Foxml) (dsPaths : DatastreamMap)
    (relsParse : String → Option RelsExt) :
    Except String (Except FoxmlError (String × Object)) :=
  match parse with
  | .error e => .ok (.error e)
  | .ok foxml => do
    let o ← Object.new foxml dsPaths relsParse
    .ok (.ok (o.pid, o))

/-- The filter of `ObjectMap::from_path`:
`result.as_ref().map(|(_, object)| !(system || content_model))
.map_err(|_| true).unwrap()` — keeps ordinary objects, drops system
and content-model objects, and panics (`unwrap` of an `Err`) on any
`FoxmlError` element. -/
def keepResults :
    List (Except FoxmlError (String × Object)) →
    Except String (List (Except FoxmlError (String × Object)))
  | [] => .ok []
  | r :: rest =>
    match r with
    | .error _ => .error "Result::unwrap() on an Err value"
    | .ok (pid, o) => do
      let kept ← keepResults rest
      if !(o.isSystemObject || o.isContentModel) then
        .ok (.ok (pid, o) :: kept)
      else
        .ok kept

/-- `collect::<Result<_, FoxmlError>>().expect(...)`: the first
`FoxmlError` aborts the run. -/
def collectResults :
    List (Except FoxmlError (String × Object)) →
    Except String (List (String × Object))
  | [] => .ok []
  | .error _ :: _ => .error "Failed to parse object files."
  | .ok p :: rest => do
    let ps ← collectResults rest
    .ok (p :: ps)

/-- `ObjectMap::from_path` (stage-2 object-graph assembly), given the
per-file FOXML parse outcomes, the datastream path map and the RELS-EXT
parse oracle: build each object, filter, collect into the PID-sorted
map.  A `.error` is a run-aborting panic. -/
def objectMapFromPath (parses : List (Except FoxmlError Foxml))
    (dsPaths : DatastreamMap) (relsParse : String → Option RelsExt) :
    Except String (List (String × Object)) := do
  let results ← parses.mapM (fun p => objectResult p dsPaths relsParse)
  let kept ← keepResults results
  let pairs ← collectResults kept
  .ok (mapFromList alphanumCompareStr pairs)

/-! ## Stage-1 FOXML validation (`src/migrate/identifiers.rs`,
`objects`) -/

/-- One step of `identifiers::objects`: a successful parse is inserted
into the `BTreeMap<ObjectIdentifier, _>` keyed by pid, a failure is
pushed into the per-path error list. -/
def objectsStage1Step
    (acc : List (String × (String × Foxml)) × List (String × FoxmlError))
    (pf : String × Except FoxmlError Foxml) :
    List (String × (String × Foxml)) × List (String × FoxmlError) :=
  match pf.2 with
  | .ok foxml => (insertB alphanumCompareStr foxml.pid (pf.1, foxml) acc.1, acc.2)
  | .error e => (acc.1, acc.2 ++ [(pf.1, e)])

/-- `identifiers::objects`: parse every staged object file; successes
are inserted into a `BTreeMap<ObjectIdentifier, _>` keyed by pid,
failures are pushed into a per-path error list that is reported (as a
warning) after the batch.  No input aborts the run. -/
def objectsStage1 (files : List (String × Except FoxmlError Foxml)) :
    List (String × (String × Foxml)) × List (String × FoxmlError) :=
  files.foldl objectsStage1Step ([], [])

/-! ## Version iterators (`ObjectMap::{versions, latest_versions,
previous_versions}`) -/

/-- `ObjectMap::versions`: every version of every datastream of every
object, in map iteration order. -/
def versionsOf (objects : List Object) :
    List (Object × Datastream × DatastreamVersion) :=
  objects.flatMap fun o =>
    o.datastreams.flatMap fun d =>
      d.versions.map fun v => (o, d, v)

/-- `ObjectMap::latest_versions`: for every datastream,
`versions.last().unwrap()` (`none` models the panic on an empty version
list). -/
def latestVersionsOf (objects : List Object) :
    List (Object × Datastream × Option DatastreamVersion) :=
  objects.flatMap fun o =>
    o.datastreams.map fun d => (o, d, d.latest?)

/-- `ObjectMap::previous_versions`: for every datastream,
`versions.iter().rev().skip(1).rev()` — every version except the
last. -/
def previousVersionsOf (objects : List Object) :
    List (Object × Datastream × DatastreamVersion) :=
  objects.flatMap fun o =>
    o.datastreams.flatMap fun d =>
      ((d.versions.reverse.drop 1).reverse).map fun v => (o, d, v)

/-! ## The file mover (`src/migrate/migrate.rs`)

Files are modelled by their byte content and modification time; the
destination is `none` when it does not exist. -/

/-- A file on disk: byte values and modification time
(`metadata().len()` is the number of bytes). -/
structure FileData where
  bytes : List Nat
  mtime : Int
deriving Repr, DecidableEq

/-- One bit-step of CRC-32 (IEEE polynomial `0xEDB88320`, reflected),
as computed by the `crc32fast` hasher. -/
def crc32Bit (c : Nat) : Nat :=
  if c % 2 = 1 then (c / 2) ^^^ 0xEDB88320 else c / 2

/-- Feed one byte into the CRC-32 state. -/
def crc32Byte (c b : Nat) : Nat :=
  crc32Bit (crc32Bit (crc32Bit (crc32Bit
    (crc32Bit (crc32Bit (crc32Bit (crc32Bit (c ^^^ b % 256))))))))

/-- CRC-32 of a byte sequence (`crc32fast::Hasher`: initial state
`0xFFFFFFFF`, final xor `0xFFFFFFFF`). -/
def crc32 (data : List Nat) : Nat :=
  (data.foldl crc32Byte 0xFFFFFFFF) ^^^ 0xFFFFFFFF

/-- `should_migrate_file`: migrate when the destination does not exist;
otherwise, in checksum mode, when the CRC-32s differ; otherwise when
the lengths or the modification times differ. -/
def shouldMigrateFile (src : FileData) (dest : Option FileData)
    (checksum : Bool) : Bool :=
  match dest with
  | none => true
  | some d =>
    if checksum then
      crc32 src.bytes ≠ crc32 d.bytes
    else
      src.bytes.length ≠ d.bytes.length || src.mtime ≠ d.mtime

/-- `should_migrate_content`: as `should_migrate_file` against an
in-memory buffer; no modification time exists, so non-checksum mode
compares only the byte length. -/
def shouldMigrateContent (content : List Nat) (dest : Option FileData)
    (checksum : Bool) : Bool :=
  match dest with
  | none => true
  | some d =>
    if checksum then
      crc32 content ≠ crc32 d.bytes
    else
      content.length ≠ d.bytes.length

/-- `MigrationResult`. -/
inductive MigrationResult where
  | Migrated
  | Updated
  | Skipped
deriving Repr, DecidableEq

/-- The result classification shared by `migrate_by_copy`,
`migrate_by_move` and `migrate_content`: act when the should-migrate
predicate holds (`Updated` when the destination existed, `Migrated`
otherwise), else `Skipped`. -/
def migrationOutcome (should destExisted : Bool) : MigrationResult :=
  if should then
    if destExisted then .Updated else .Migrated
  else .Skipped

/-- `migrate_by_copy` (result value only; the copy itself is a
file-system effect). -/
def migrateByCopy (src : FileData) (dest : Option FileData)
    (checksum : Bool) : MigrationResult :=
  migrationOutcome (shouldMigrateFile src dest checksum) dest.isSome

/-- `migrate_content` (result value only). -/
def migrateContent (content : List Nat) (dest : Option FileData)
    (checksum : Bool) : MigrationResult :=
  migrationOutcome (shouldMigrateContent content dest checksum) dest.isSome

/-! ## The identifier codec (`src/migrate/identifiers.rs`) -/

/-- The decode table `ENCODING` applied to a captured fragment:
`str::replace("%5F", "_")`, scanning left to right over
non-overlapping occurrences. -/
def decFrag : List Char → List Char
  | c :: c2 :: c3 :: rest =>
    if c = '%' ∧ c2 = '5' ∧ c3 = 'F' then '_' :: decFrag rest
    else c :: decFrag (c2 :: c3 :: rest)
  | c :: cs => c :: decFrag cs
  | [] => []

/-- Modelled from the spec: the on-disk encoding of a PID fragment.
The spec gives the object filename as `info%3Afedora%2F<ns>%3A<local>`
with "`_` is sometimes encoded as `%5F`"; the encoder (Fedora itself)
is not part of this repository.  This models the fragment encoding
that does encode `_`. -/
def encFrag : List Char → List Char
  | [] => []
  | c :: cs => if c = '_' then '%' :: '5' :: 'F' :: encFrag cs else c :: encFrag cs

/-- Modelled from the spec: the encoded object-store filename
`info%3Afedora%2F<ns>%3A<local>` for the PID `ns:local`. -/
def encodeObjectFileName (ns local_ : String) : String :=
  String.mk ("info%3Afedora%2F".toList ++ encFrag ns.toList ++
             "%3A".toList ++ encFrag local_.toList)

/-- Modelled from the spec: a character safe to appear in a PID
fragment (ASCII alphanumerics, `-`, `.`, `_`; the spec speaks of "only
safe characters" without enumerating them). -/
def safeChar (c : Char) : Bool :=
  c.isAlphanum || c = '-' || c = '.' || c = '_'

/-- Does the string start with the literal `%3A`? -/
def starts3A (s : List Char) : Bool :=
  match s with
  | c1 :: c2 :: c3 :: _ => c1 = '%' ∧ c2 = '3' ∧ c3 = 'A'
  | _ => false

/-- Split at the last occurrence of the literal `%3A` (the behaviour of
the greedy `(.*)%3A(.*)` in `OBJECT_FILE_REGEX` under the regex crate's
leftmost-first semantics with backtracking): `none` when `%3A` does not
occur. -/
def lastSplit3A : List Char → Option (List Char × List Char)
  | [] => none
  | c :: cs =>
    match lastSplit3A cs with
    | some (a, b) => some (c :: a, b)
    | none =>
      if starts3A (c :: cs) then some ([], cs.drop 2) else none

/-- Leftmost occurrence of the literal `info%3Afedora%2F`; returns the
remainder of the string after it (the text the capture groups range
over). -/
def splitObjectPfx : List Char → Option (List Char)
  | [] => none
  | c :: cs =>
    if "info%3Afedora%2F".toList.isPrefixOf (c :: cs) then
      some ((c :: cs).drop 16)
    else
      splitObjectPfx cs

/-- `ObjectIdentifier::from_path` on a file name: apply
`OBJECT_FILE_REGEX` (`info%3Afedora%2F(.*)%3A(.*)`), then
`pid = decode($1) ++ ":" ++ decode($2)`; `none` when the regex does not
match. -/
def objectIdentifierFromFileName (fileName : String) : Option String := do
  let rest ← splitObjectPfx fileName.toList
  let (g1, g2) ← lastSplit3A rest
  some (String.mk (decFrag g1 ++ ':' :: decFrag g2))

/-! ## CSV rows (`src/csv/rows.rs`) -/

/-- The target content models (`enum Model`). -/
inductive Model where
  | Audio
  | BasicImage
  | Binary
  | Book
  | Collection
  | Compound
  | LargeImage
  | Newspaper
  | NewspaperIssue
  | NewspaperPage
  | Page
  | PDF
  | Video
deriving Repr, DecidableEq

/-- `MODEL_MAP`: Fedora content models to target models. -/
def modelMap : List (String × Model) :=
  [("islandora:collectionCModel", .Collection),
   ("islandora:sp_basic_image", .BasicImage),
   ("islandora:sp_large_image_cmodel", .LargeImage),
   ("islandora:sp-audioCModel", .Audio),
   ("islandora:sp_videoCModel", .Video),
   ("islandora:sp_pdf", .PDF),
   ("islandora:bookCModel", .Book),
   ("islandora:pageCModel", .Page),
   ("islandora:newspaperCModel", .Newspaper),
   ("islandora:newspaperIssueCModel", .NewspaperIssue),
   ("islandora:newspaperPageCModel", .NewspaperPage),
   ("islandora:compoundCModel", .Compound),
   ("islandora:binaryCModel", .Binary),
   ("islandora:binaryObjectCModel", .Binary)]

/-- `TryFrom<&str> for Model`. -/
def Model.tryFrom (value : String) : Except String Model :=
  match (modelMap.find? (fun e => e.1 = value)).map Prod.snd with
  | some m => .ok m
  | none => .error "Unknown content model"

/-- `Model::identifier`: the target ontology IRI. -/
def Model.identifier : Model → String
  | .Audio => "http://purl.org/coar/resource_type/c_18cc"
  | .BasicImage => "http://purl.org/coar/resource_type/c_c513"
  | .Binary => "http://purl.org/coar/resource_type/c_1843"
  | .Book => "https://schema.org/Book"
  | .Collection => "http://purl.org/dc/dcmitype/Collection"
  | .Compound => "http://purl.org/dc/dcmitype/Collection"
  | .LargeImage => "http://purl.org/coar/resource_type/c_c513"
  | .Newspaper => "https://schema.org/Book"
  | .NewspaperIssue => "https://schema.org/PublicationIssue"
  | .NewspaperPage => "http://id.loc.gov/ontologies/bibframe/part"
  | .Page => "http://id.loc.gov/ontologies/bibframe/part"
  | .PDF => "https://schema.org/DigitalDocument"
  | .Video => "http://purl.org/coar/resource_type/c_12ce"

/-- `DisplayHint::as_str` composed with `From<Model> for DisplayHint`. -/
def displayHintOf : Model → String
  | .LargeImage => "http://openseadragon.github.io"
  | .NewspaperPage => "http://openseadragon.github.io"
  | .Page => "http://openseadragon.github.io"
  | .PDF => "http://mozilla.github.io/pdf.js"
  | _ => ""

/-- `NodeRow` (dates carried as opaque strings). -/
structure NodeRow where
  pid : String
  createdDate : String
  label : String
  weight : String
  model : String
  modifiedDate : String
  state : String
  user : String
  displayHint : String
  parents : String
deriving Repr, DecidableEq

/-- `NodeRow::new`: panics (`.error`) on an unknown content model;
`weight` renders the optional weight or the empty string; `parents` are
joined with `|`. -/
def NodeRow.new (o : Object) : Except String NodeRow := do
  let model ← Model.tryFrom o.model
  .ok { pid := o.pid,
        createdDate := o.createdDate,
        label := o.label,
        weight := (o.weight.map toString).getD "",
        model := model.identifier,
        modifiedDate := o.modifiedDate,
        state := o.state.asStatic,
        user := o.owner,
        displayHint := displayHintOf model,
        parents := String.intercalate "|" o.parents }

/-- `NodeRow::csv`: one row per object, in map iteration order (the
first panic aborts). -/
def nodeRowsOf (objects : List Object) : Except String (List NodeRow) :=
  objects.mapM NodeRow.new

/-- `DSID_MAP`: datastream ids to bundles. -/
def dsidMap : List (String × String) :=
  [("OCR", "extracted_text"),
   ("FULL_TEXT", "extracted_text"),
   ("TECHMD", "fits_technical_metadata")]

/-- `MIME_TYPE_MAP`: MIME types to bundles. -/
def mimeTypeMap : List (String × String) :=
  [("application/pdf", "document"),
   ("application/rdf+xml", "file"),
   ("application/xml", "file"),
   ("audio/aac", "audio"),
   ("audio/mpeg", "audio"),
   ("audio/wav", "audio"),
   ("image/gif", "image"),
   ("image/jp2", "file"),
   ("image/tiff", "file"),
   ("image/jpeg", "image"),
   ("image/jpg", "image"),
   ("image/png", "image"),
   ("text/plain", "document"),
   ("text/xml", "file"),
   ("video/mp4", "video")]

/-- `MediaRow::bundle`: dsid bundle first, then MIME-type bundle, else
`"file"`. -/
def bundleOf (dsid mimeType : String) : String :=
  match (dsidMap.find? (fun e => e.1 = dsid)).map Prod.snd with
  | some b => b
  | none =>
    match (mimeTypeMap.find? (fun e => e.1 = mimeType)).map Prod.snd with
    | some b => b
    | none => "file"

/-- Last path component (`Path::file_name`, for the staged version
paths built by the migration). -/
def fileNameOf (path : String) : String :=
  ((path.split (fun c => c = '/')).getLast?).getD path

/-- `MediaRow` (dates carried as opaque strings). -/
structure MediaRow where
  pid : String
  dsid : String
  version : String
  bundle : String
  createdDate : String
  fileSize : Nat
  label : String
  mimeType : String
  name : String
  user : String
deriving Repr, DecidableEq

/-- `MediaRow::new`; `fsLen` models the file system (`none` = the file
does not exist, giving `file_size = 0`). -/
def MediaRow.new (fsLen : String → Option Nat)
    (t : Object × Datastream × DatastreamVersion) : MediaRow :=
  { pid := t.1.pid,
    dsid := t.2.1.id,
    version := t.2.2.id,
    bundle := bundleOf t.2.1.id t.2.2.mimeType,
    createdDate := t.2.2.createdDate,
    fileSize := (fsLen t.2.2.path).getD 0,
    label := t.2.2.label,
    mimeType := t.2.2.mimeType,
    name := fileNameOf t.2.2.path,
    user := t.1.owner }

/-- `MediaRow::csv` (media.csv): one row per element of
`latest_versions` (the panic on an empty version list aborts). -/
def mediaRowsOf (fsLen : String → Option Nat) (objects : List Object) :
    Except String (List MediaRow) :=
  (latestVersionsOf objects).mapM (fun t =>
    match t.2.2 with
    | some v => .ok (MediaRow.new fsLen (t.1, t.2.1, v))
    | none => .error "versions.last().unwrap() failed")

/-- `MediaRow::revisions_csv` (media_revisions.csv): one row per
element of `previous_versions`. -/
def mediaRevisionRowsOf (fsLen : String → Option Nat)
    (objects : List Object) : List MediaRow :=
  (previousVersionsOf objects).map (MediaRow.new fsLen)

/-! ## The script engine (`src/csv/scripts.rs`) -/

/-- A script row (`type Row = Vec<String>`). -/
abbrev Row := List String

/-- `BTreeSet<Row>::insert` into a sorted duplicate-free list keyed by
the derived `Ord` on `Vec<String>`: an equal row is not inserted
again. -/
def setInsert (r : Row) : List Row → List Row
  | [] => [r]
  | x :: xs =>
    match rowCompare r x with
    | .lt => r :: x :: xs
    | .eq => x :: xs
    | .gt => x :: setInsert r xs

/-- Collect rows into a `BTreeSet<Row>` (the de-duplication step of
`aggregate_rows`). -/
def setOfList (rows : List Row) : List Row :=
  rows.foldl (fun s r => setInsert r s) []

/-- `a[sort_by_column]`: the sort key of a row.  (Rust indexing panics
when the row is shorter; the theorems restrict to in-range rows.) -/
def colKey (r : Row) (i : Nat) : String :=
  r.getD i ""

/-- `aggregate_rows`: concatenate `rows(pid)` over the objects in map
iteration order, de-duplicate through a `BTreeSet`, then sort (stably)
by the chosen column with the alphanumeric comparator. -/
def aggregateRows (rowsOf : String → List Row) (pids : List String)
    (sortByColumn : Nat) : List Row :=
  sortOrd (fun a b => alphanumCompareStr (colKey a sortByColumn) (colKey b sortByColumn))
    (setOfList ((pids.map rowsOf).flatten))

/-! ## Concrete fixtures (used to evaluate the pipeline on closed
inputs) -/

/-- A concrete RELS-EXT view, as in the repository's own test
(`valid_rels_ext`): a page with two collection parents, one member
parent, a page number, a sequence number and one compound tuple. -/
def fxRels : RelsExt :=
  { hasModel := ["islandora:pageCModel"],
    isMemberOfCollection := ["ns:456", "ns:789"],
    isMemberOf := ["ns:111"],
    isPageNumber := some 2,
    isSequenceNumber := some 3,
    isSequenceNumberOf := [("ns:100", 321)] }

/-- A concrete FOXML with the five required object properties and a
single inline RELS-EXT datastream. -/
def fxFoxml : Foxml :=
  { pid := "ns:1",
    properties :=
      [{ name := "info:fedora/fedora-system:def/model#state", value := "Active" },
       { name := "info:fedora/fedora-system:def/model#label", value := "Test Object" },
       { name := "info:fedora/fedora-system:def/model#ownerId", value := "fedoraAdmin" },
       { name := "info:fedora/fedora-system:def/model#createdDate", value := "2001-01-01T00:00:00Z" },
       { name := "info:fedora/fedora-system:def/view#lastModifiedDate", value := "2001-01-02T00:00:00Z" }],
    datastreams :=
      [{ id := "RELS-EXT", state := .A, controlGroup := .X,
         versions :=
           [{ id := "RELS-EXT.0", label := "rels", created := "2001-01-01T00:00:00Z",
              mimeType := "application/rdf+xml" }] }] }

/-- The staged path of the fixture's RELS-EXT version. -/
def fxPaths : DatastreamMap :=
  [({ pid := "ns:1", dsid := "RELS-EXT", version := "RELS-EXT.0" },
    "datastreams/ns:1/RELS-EXT/RELS-EXT.0/rels.rdf")]

/-- A RELS-EXT parse oracle returning the fixture view for every
path. -/
def fxParse : String → Option RelsExt := fun _ => some fxRels

/-- The object `Object::new` builds from the fixture. -/
def fxObject : Object :=
  { pid := "ns:1",
    state := .Active,
    owner := "admin",
    label := "Test Object",
    model := "islandora:pageCModel",
    parents := ["ns:111", "ns:456", "ns:789"],
    weight := some 2,
    createdDate := "2001-01-01T00:00:00Z",
    modifiedDate := "2001-01-02T00:00:00Z",
    datastreams :=
      [{ id := "RELS-EXT", state := .Active,
         versions :=
           [{ id := "RELS-EXT.0", label := "rels",
              createdDate := "2001-01-01T00:00:00Z",
              mimeType := "application/rdf+xml",
              path := "datastreams/ns:1/RELS-EXT/RELS-EXT.0/rels.rdf" }] }] }

/-- The nodes.csv row `NodeRow::new` builds from the fixture object. -/
def fxRow : NodeRow :=
  { pid := "ns:1",
    createdDate := "2001-01-01T00:00:00Z",
    label := "Test Object",
    weight := "2",
    model := "http://id.loc.gov/ontologies/bibframe/part",
    modifiedDate := "2001-01-02T00:00:00Z",
    state := "Active",
    user := "admin",
    displayHint := "http://openseadragon.github.io",
    parents := "ns:111|ns:456|ns:789" }

/-- A concrete FOXML whose RELS-EXT datastream is absent. -/
def fxFoxmlNoRels : Foxml :=
  { pid := "bare:1",
    properties :=
      [{ name := "info:fedora/fedora-system:def/model#state", value := "Active" },
       { name := "info:fedora/fedora-system:def/model#label", value := "Bare" },
       { name := "info:fedora/fedora-system:def/model#ownerId", value := "someone" },
       { name := "info:fedora/fedora-system:def/model#createdDate", value := "2001-01-01T00:00:00Z" },
       { name := "info:fedora/fedora-system:def/view#lastModifiedDate", value := "2001-01-02T00:00:00Z" }],
    datastreams := [] }

/-- A second fixture object, pid `item:2`. -/
def fxObject2 : Object := { fxObject with pid := "item:2" }

/-- A third fixture object, pid `item:10`. -/
def fxObject10 : Object := { fxObject with pid := "item:10" }

/-- Fixture key/object pairs, deliberately out of order. -/
def c8Pairs : List (String × Object) :=
  [("item:10", fxObject10), ("item:2", fxObject2)]

/-- The expected nodes.csv rows for `c8Pairs`, in map iteration
order (`item:2` before `item:10`). -/
def c8Rows : List NodeRow :=
  [{ fxRow with pid := "item:2" }, { fxRow with pid := "item:10" }]

/-- A fixture script: `rows(pid)` returns the same two-cell row twice
(so de-duplication is exercised). -/
def c9RowsOf : String → List Row := fun p => [[p, "t"], [p, "t"]]

/-! ## Helper lemmas: comparators -/

theorem cmpNat_eq_iff {a b : Nat} : cmpNat a b = .eq ↔ a = b := by
  unfold cmpNat
  by_cases h1 : a < b
  · simp only [h1, if_true]
    constructor
    · intro hc; cases hc
    · intro hc; omega
  · by_cases h2 : b < a
    · simp only [h1, h2, if_false, if_true]
      constructor
      · intro hc; cases hc
      · intro hc; omega
    · simp only [h1, h2, if_false]
      constructor
      · intro _; omega
      · intro _; trivial

theorem cmpNat_swap (a b : Nat) : (cmpNat a b).swap = cmpNat b a := by
  unfold cmpNat
  rcases Nat.lt_trichotomy a b with h | h | h
  · simp [h, Nat.lt_asymm h, Ordering.swap]
  · subst h
    simp [Nat.lt_irrefl, Ordering.swap]
  · simp [h, Nat.lt_asymm h, Ordering.swap]

theorem cmpNat_lt_iff {a b : Nat} : cmpNat a b = .lt ↔ a < b := by
  unfold cmpNat
  by_cases h1 : a < b
  · simp [h1]
  · by_cases h2 : b < a <;> simp [h1, h2]

theorem cmpNat_trans {a b c : Nat} (h1 : cmpNat a b = .lt)
    (h2 : cmpNat b c = .lt) : cmpNat a c = .lt := by
  rw [cmpNat_lt_iff] at *
  omega

theorem cmpChar_eq_iff {a b : Char} : cmpChar a b = .eq ↔ a = b := by
  unfold cmpChar
  rw [cmpNat_eq_iff]
  constructor
  · intro h
    have hv : a.val = b.val := UInt32.toNat.inj h
    exact Char.ext hv
  · intro h
    rw [h]

theorem cmpChar_swap (a b : Char) : (cmpChar a b).swap = cmpChar b a :=
  cmpNat_swap _ _

theorem cmpChar_trans {a b c : Char} (h1 : cmpChar a b = .lt)
    (h2 : cmpChar b c = .lt) : cmpChar a c = .lt :=
  cmpNat_trans h1 h2

theorem lexCompare_eq_iff {f : α → α → Ordering}
    (hf : ∀ a b, f a b = .eq ↔ a = b) :
    ∀ {l1 l2 : List α}, lexCompare f l1 l2 = .eq ↔ l1 = l2 := by
  intro l1
  induction l1 with
  | nil => intro l2; cases l2 <;> simp [lexCompare]
  | cons a as ih =>
    intro l2
    cases l2 with
    | nil => simp [lexCompare]
    | cons b bs =>
      simp only [lexCompare]
      cases hab : f a b with
      | eq =>
        have hab' : a = b := (hf a b).mp hab
        subst hab'
        simp [ih]
      | lt =>
        simp only [List.cons.injEq]
        constructor
        · intro hc; cases hc
        · rintro ⟨rfl, rfl⟩
          rw [(hf a a).mpr rfl] at hab
          cases hab
      | gt =>
        simp only [List.cons.injEq]
        constructor
        · intro hc; cases hc
        · rintro ⟨rfl, rfl⟩
          rw [(hf a a).mpr rfl] at hab
          cases hab

theorem lexCompare_trans {f : α → α → Ordering}
    (hf : ∀ a b, f a b = .eq ↔ a = b)
    (ht : ∀ {a b c}, f a b = .lt → f b c = .lt → f a c = .lt) :
    ∀ {l1 l2 l3 : List α}, lexCompare f l1 l2 = .lt →
      lexCompare f l2 l3 = .lt → lexCompare f l1 l3 = .lt := by
  intro l1
  induction l1 with
  | nil =>
    intro l2 l3 h1 h2
    cases l2 with
    | nil => exact h2
    | cons b bs =>
      cases l3 with
      | nil => simp [lexCompare] at h2
      | cons c cs => simp [lexCompare]
  | cons a as ih =>
    intro l2 l3 h1 h2
    cases l2 with
    | nil => simp [lexCompare] at h1
    | cons b bs =>
      cases l3 with
      | nil => simp [lexCompare] at h2
      | cons c cs =>
        simp only [lexCompare] at h1 h2 ⊢
        cases hab : f a b with
        | gt => rw [hab] at h1; cases h1
        | eq =>
          have hab' : a = b := (hf a b).mp hab
          subst hab'
          rw [hab] at h1
          cases hac : f a c with
          | eq =>
            have hac' : a = c := (hf a c).mp hac
            subst hac'
            rw [hac] at h2
            exact ih h1 h2
          | lt => rfl
          | gt => rw [hac] at h2; cases h2
        | lt =>
          cases hbc : f b c with
          | eq =>
            have hbc' : b = c := (hf b c).mp hbc
            subst hbc'
            rw [hab]
          | lt => rw [ht hab hbc]
          | gt => rw [hbc] at h2; cases h2

theorem strCompare_eq_iff {a b : String} : strCompare a b = .eq ↔ a = b := by
  unfold strCompare
  rw [lexCompare_eq_iff (fun _ _ => cmpChar_eq_iff)]
  constructor
  · intro h
    cases a with
    | mk d1 =>
      cases b with
      | mk d2 =>
        have hd : d1 = d2 := by simpa [String.toList] using h
        rw [hd]
  · intro h; rw [h]

theorem strCompare_trans {a b c : String} (h1 : strCompare a b = .lt)
    (h2 : strCompare b c = .lt) : strCompare a c = .lt :=
  lexCompare_trans (fun _ _ => cmpChar_eq_iff) (fun ha hb => cmpChar_trans ha hb) h1 h2

theorem rowCompare_eq_iff {a b : List String} : rowCompare a b = .eq ↔ a = b :=
  lexCompare_eq_iff (fun _ _ => strCompare_eq_iff)

theorem rowCompare_trans {a b c : List String} (h1 : rowCompare a b = .lt)
    (h2 : rowCompare b c = .lt) : rowCompare a c = .lt :=
  lexCompare_trans (fun _ _ => strCompare_eq_iff)
    (fun ha hb => strCompare_trans ha hb) h1 h2

/-! ## Helper lemmas: the alphanumeric comparator is antisymmetric -/

theorem anCompareAux_swap :
    ∀ (fuel : Nat) (a b : List Char),
      (anCompareAux fuel a b).swap = anCompareAux fuel b a := by
  intro fuel
  induction fuel with
  | zero =>
    intro a b
    cases a <;> cases b <;> rfl
  | succ f ih =>
    intro a b
    cases a with
    | nil => cases b <;> rfl
    | cons x xs =>
      cases b with
      | nil => rfl
      | cons y ys =>
        simp only [anCompareAux]
        by_cases hd : (x.isDigit && y.isDigit) = true
        · have hd' : (y.isDigit && x.isDigit) = true := by
            rw [Bool.and_comm] at hd; exact hd
          simp only [hd, hd', if_true]
          have hswap := cmpNat_swap
            (digitsVal ((x :: xs).takeWhile Char.isDigit))
            (digitsVal ((y :: ys).takeWhile Char.isDigit))
          cases hv : cmpNat (digitsVal ((x :: xs).takeWhile Char.isDigit))
              (digitsVal ((y :: ys).takeWhile Char.isDigit)) with
          | eq =>
            rw [hv] at hswap
            rw [← hswap]
            exact ih _ _
          | lt =>
            rw [hv] at hswap
            rw [← hswap]
            rfl
          | gt =>
            rw [hv] at hswap
            rw [← hswap]
            rfl
        · have hd' : ¬((y.isDigit && x.isDigit) = true) := by
            rw [Bool.and_comm] at hd; exact hd
          simp only [hd, hd', if_false]
          have hswap := cmpChar_swap x y
          cases hv : cmpChar x y with
          | eq =>
            rw [hv] at hswap
            rw [← hswap]
            exact ih _ _
          | lt =>
            rw [hv] at hswap
            rw [← hswap]
            rfl
          | gt =>
            rw [hv] at hswap
            rw [← hswap]
            rfl

theorem alphanumCompare_swap (a b : List Char) :
    (alphanumCompare a b).swap = alphanumCompare b a := by
  unfold alphanumCompare
  rw [Nat.add_comm b.length a.length]
  exact anCompareAux_swap _ a b

theorem alphanumCompareStr_gt_iff_lt {a b : String} :
    alphanumCompareStr a b = .gt ↔ alphanumCompareStr b a = .lt := by
  unfold alphanumCompareStr
  have h := alphanumCompare_swap a.toList b.toList
  constructor
  · intro hab
    rw [hab] at h
    exact h.symm
  · intro hba
    rw [← h] at hba
    cases hab : alphanumCompare a.toList b.toList <;> rw [hab] at hba <;>
      first
        | rfl
        | cases hba

/-! ## Helper lemmas: stable sorting and sorted insertion -/

theorem insOrd_perm (cmp : α → α → Ordering) (x : α) :
    ∀ l : List α, (insOrd cmp x l).Perm (x :: l) := by
  intro l
  induction l with
  | nil => simp [insOrd]
  | cons y ys ih =>
    simp only [insOrd]
    by_cases h : cmp x y = .gt
    · simp only [h, if_true]
      exact (ih.cons y).trans (List.Perm.swap x y ys)
    · simp [h]

theorem sortOrd_perm (cmp : α → α → Ordering) :
    ∀ l : List α, (sortOrd cmp l).Perm l := by
  intro l
  induction l with
  | nil => simp [sortOrd]
  | cons x xs ih =>
    exact ((insOrd_perm cmp x (sortOrd cmp xs)).trans (ih.cons x))

theorem insOrd_chain (cmp : α → α → Ordering)
    (hswap : ∀ a b, cmp a b = .gt → cmp b a = .lt) (x : α) :
    ∀ l : List α, List.Chain' (fun a b => cmp a b ≠ .gt) l →
      List.Chain' (fun a b => cmp a b ≠ .gt) (insOrd cmp x l) := by
  intro l
  induction l with
  | nil => intro _; simp [insOrd]
  | cons y ys ih =>
    intro h
    simp only [insOrd]
    by_cases hxy : cmp x y = .gt
    · simp only [hxy, if_true]
      have htail := ih (List.Chain'.tail h)
      apply List.chain'_cons'.mpr
      refine ⟨?_, htail⟩
      intro b hb
      cases ys with
      | nil =>
        simp only [insOrd, Option.mem_def, List.head?] at hb
        cases hb
        rw [hswap x y hxy]
        intro hc; cases hc
      | cons z zs =>
        simp only [insOrd] at hb
        by_cases hxz : cmp x z = .gt
        · simp only [hxz, if_true, Option.mem_def, List.head?] at hb
          cases hb
          exact (List.chain'_cons.mp h).1
        · simp only [hxz, if_false, Option.mem_def, List.head?] at hb
          cases hb
          rw [hswap x y hxy]
          intro hc; cases hc
    · simp only [hxy, if_false]
      exact List.chain'_cons.mpr ⟨hxy, h⟩

theorem sortOrd_chain (cmp : α → α → Ordering)
    (hswap : ∀ a b, cmp a b = .gt → cmp b a = .lt) :
    ∀ l : List α, List.Chain' (fun a b => cmp a b ≠ .gt) (sortOrd cmp l) := by
  intro l
  induction l with
  | nil => simp [sortOrd]
  | cons x xs ih => exact insOrd_chain cmp hswap x _ ih

theorem setInsert_mem (r : Row) :
    ∀ (s : List Row) (x : Row), x ∈ setInsert r s ↔ x = r ∨ x ∈ s := by
  intro s
  induction s with
  | nil => intro x; simp [setInsert]
  | cons y ys ih =>
    intro x
    simp only [setInsert]
    cases hry : rowCompare r y with
    | lt =>
      simp [List.mem_cons]
    | eq =>
      have : r = y := rowCompare_eq_iff.mp hry
      subst this
      simp only [List.mem_cons]
      tauto
    | gt =>
      simp only [List.mem_cons, ih x]
      tauto

theorem lexCompare_swap {f : α → α → Ordering}
    (hf : ∀ a b, (f a b).swap = f b a) :
    ∀ l1 l2 : List α, (lexCompare f l1 l2).swap = lexCompare f l2 l1 := by
  intro l1
  induction l1 with
  | nil => intro l2; cases l2 <;> rfl
  | cons a as ih =>
    intro l2
    cases l2 with
    | nil => rfl
    | cons b bs =>
      simp only [lexCompare]
      have hab := hf a b
      cases hv : f a b with
      | eq =>
        rw [hv] at hab
        rw [← hab]
        exact ih bs
      | lt =>
        rw [hv] at hab
        rw [← hab]
        rfl
      | gt =>
        rw [hv] at hab
        rw [← hab]
        rfl

theorem strCompare_swap (a b : String) : (strCompare a b).swap = strCompare b a :=
  lexCompare_swap cmpChar_swap _ _

theorem rowCompare_swap (a b : Row) : (rowCompare a b).swap = rowCompare b a :=
  lexCompare_swap strCompare_swap _ _

theorem rowCompare_gt_lt {a b : Row} (h : rowCompare a b = .gt) :
    rowCompare b a = .lt := by
  have hs := rowCompare_swap a b
  rw [h] at hs
  exact hs.symm

theorem setInsert_chain (r : Row) :
    ∀ s : List Row, List.Chain' (fun a b => rowCompare a b = .lt) s →
      List.Chain' (fun a b => rowCompare a b = .lt) (setInsert r s) := by
  intro s
  induction s with
  | nil => intro _; simp [setInsert]
  | cons y ys ih =>
    intro h
    simp only [setInsert]
    cases hry : rowCompare r y with
    | lt => exact List.chain'_cons.mpr ⟨hry, h⟩
    | eq => exact h
    | gt =>
      have hyr : rowCompare y r = .lt := rowCompare_gt_lt hry
      have htail := ih (List.Chain'.tail h)
      show List.Chain' (fun a b => rowCompare a b = .lt) (y :: setInsert r ys)
      apply List.chain'_cons'.mpr
      refine ⟨?_, htail⟩
      intro b hb
      cases ys with
      | nil =>
        simp only [setInsert, Option.mem_def, List.head?] at hb
        cases hb
        exact hyr
      | cons z zs =>
        simp only [setInsert] at hb
        cases hrz : rowCompare r z with
        | lt =>
          simp only [hrz, Option.mem_def, List.head?] at hb
          cases hb
          exact hyr
        | eq =>
          simp only [hrz, Option.mem_def, List.head?] at hb
          cases hb
          exact (List.chain'_cons.mp h).1
        | gt =>
          simp only [hrz, Option.mem_def, List.head?] at hb
          cases hb
          exact (List.chain'_cons.mp h).1

theorem setOfList_sorted_mem (rows : List Row) :
    List.Chain' (fun a b => rowCompare a b = .lt) (setOfList rows)
    ∧ (∀ x, x ∈ setOfList rows ↔ x ∈ rows) := by
  unfold setOfList
  suffices h : ∀ (acc : List Row),
      List.Chain' (fun a b => rowCompare a b = .lt) acc →
      List.Chain' (fun a b => rowCompare a b = .lt)
        (rows.foldl (fun s r => setInsert r s) acc)
      ∧ (∀ x, x ∈ rows.foldl (fun s r => setInsert r s) acc ↔
          x ∈ rows ∨ x ∈ acc) by
    have := h [] (by simp)
    refine ⟨this.1, fun x => ?_⟩
    rw [(this.2 x)]
    simp
  induction rows with
  | nil =>
    intro acc hacc
    simpa using hacc
  | cons r rs ih =>
    intro acc hacc
    simp only [List.foldl_cons]
    have := ih (setInsert r acc) (setInsert_chain r acc hacc)
    refine ⟨this.1, fun x => ?_⟩
    rw [this.2 x, setInsert_mem r acc x]
    simp [List.mem_cons]
    tauto

/-! ## Helper lemmas: duplicate-free sorted lists, `Except` inversion -/

theorem chain_lt_nodup {l : List Row}
    (h : List.Chain' (fun a b => rowCompare a b = .lt) l) : l.Nodup := by
  have htrans : IsTrans Row (fun a b : Row => rowCompare a b = .lt) :=
    ⟨fun _ _ _ h1 h2 => rowCompare_trans h1 h2⟩
  have hp : List.Pairwise (fun a b => rowCompare a b = .lt) l :=
    List.chain'_iff_pairwise.mp h
  exact hp.imp (fun {a b} hab => by
    intro hc
    subst hc
    rw [rowCompare_eq_iff.mpr rfl] at hab
    cases hab)

theorem exceptBind_ok {ε α β : Type} {x : Except ε α} {f : α → Except ε β} {b : β} :
    (x >>= f) = Except.ok b ↔ ∃ a, x = Except.ok a ∧ f a = Except.ok b := by
  cases x with
  | error e =>
    constructor
    · intro h; cases h
    · rintro ⟨a, ha, _⟩; cases ha
  | ok a =>
    constructor
    · intro h; exact ⟨a, rfl, h⟩
    · rintro ⟨a', ha, hf⟩
      injection ha with ha
      subst ha
      exact hf

theorem insertB_chain {κ : Type u} {ν : Type v} (cmp : κ → κ → Ordering)
    (hswap : ∀ a b, cmp a b = .gt → cmp b a = .lt) (k : κ) (v : ν) :
    ∀ l : List (κ × ν), List.Chain' (fun x y => cmp x.1 y.1 = .lt) l →
      List.Chain' (fun x y => cmp x.1 y.1 = .lt) (insertB cmp k v l) := by
  intro l
  induction l with
  | nil => intro _; simp [insertB]
  | cons p ps ih =>
    intro h
    simp only [insertB]
    cases hkp : cmp k p.1 with
    | lt => exact List.chain'_cons.mpr ⟨hkp, h⟩
    | eq =>
      show List.Chain' (fun x y => cmp x.1 y.1 = .lt) ((p.1, v) :: ps)
      apply List.chain'_cons'.mpr
      refine ⟨?_, List.Chain'.tail h⟩
      intro b hb
      have := List.chain'_cons'.mp h
      exact this.1 b hb
    | gt =>
      have htail := ih (List.Chain'.tail h)
      show List.Chain' (fun x y => cmp x.1 y.1 = .lt) (p :: insertB cmp k v ps)
      apply List.chain'_cons'.mpr
      refine ⟨?_, htail⟩
      intro b hb
      cases ps with
      | nil =>
        simp only [insertB, Option.mem_def, List.head?] at hb
        cases hb
        exact hswap _ _ hkp
      | cons q qs =>
        simp only [insertB] at hb
        cases hkq : cmp k q.1 with
        | lt =>
          simp only [hkq, Option.mem_def, List.head?] at hb
          cases hb
          exact hswap _ _ hkp
        | eq =>
          simp only [hkq, Option.mem_def, List.head?] at hb
          cases hb
          exact (List.chain'_cons.mp h).1
        | gt =>
          simp only [hkq, Option.mem_def, List.head?] at hb
          cases hb
          exact (List.chain'_cons.mp h).1

theorem insertB_forall {κ : Type u} {ν : Type v} {P : ν → Prop}
    (cmp : κ → κ → Ordering) (k : κ) (v : ν) :
    ∀ l : List (κ × ν), P v → (∀ x ∈ l, P x.2) →
      ∀ x ∈ insertB cmp k v l, P x.2 := by
  intro l
  induction l with
  | nil =>
    intro hv _ x hx
    simp only [insertB, List.mem_singleton] at hx
    subst hx
    exact hv
  | cons p ps ih =>
    intro hv hl x hx
    simp only [insertB] at hx
    cases hkp : cmp k p.1 with
    | lt =>
      simp only [hkp, List.mem_cons] at hx
      rcases hx with rfl | rfl | hx
      · exact hv
      · exact hl p (by simp)
      · exact hl x (by simp [hx])
    | eq =>
      simp only [hkp, List.mem_cons] at hx
      rcases hx with rfl | hx
      · exact hv
      · exact hl x (by simp [hx])
    | gt =>
      simp only [hkp, List.mem_cons] at hx
      rcases hx with rfl | hx
      · exact hl p (by simp)
      · exact ih hv (fun y hy => hl y (by simp [hy])) x hx

theorem mapFromList_chain {κ : Type u} {ν : Type v} (cmp : κ → κ → Ordering)
    (hswap : ∀ a b, cmp a b = .gt → cmp b a = .lt) (l : List (κ × ν)) :
    List.Chain' (fun x y => cmp x.1 y.1 = .lt) (mapFromList cmp l) := by
  unfold mapFromList
  suffices h : ∀ acc : List (κ × ν),
      List.Chain' (fun x y => cmp x.1 y.1 = .lt) acc →
      List.Chain' (fun x y => cmp x.1 y.1 = .lt)
        (l.foldl (fun m e => insertB cmp e.1 e.2 m) acc) by
    exact h [] (by simp)
  induction l with
  | nil => intro acc hacc; simpa using hacc
  | cons e es ih =>
    intro acc hacc
    simp only [List.foldl_cons]
    exact ih _ (insertB_chain cmp hswap e.1 e.2 acc hacc)

theorem mapFromList_forall {κ : Type u} {ν : Type v} {P : ν → Prop}
    (cmp : κ → κ → Ordering) (l : List (κ × ν)) (hl : ∀ x ∈ l, P x.2) :
    ∀ x ∈ mapFromList cmp l, P x.2 := by
  unfold mapFromList
  suffices h : ∀ acc : List (κ × ν), (∀ x ∈ l, P x.2) → (∀ x ∈ acc, P x.2) →
      ∀ x ∈ l.foldl (fun m e => insertB cmp e.1 e.2 m) acc, P x.2 by
    exact h [] hl (by simp)
  clear hl
  induction l with
  | nil =>
    intro acc _ hacc x hx
    simpa using hacc x (by simpa using hx)
  | cons e es ih =>
    intro acc hl hacc x hx
    simp only [List.foldl_cons] at hx
    exact ih _ (fun y hy => hl y (by simp [hy]))
      (insertB_forall cmp e.1 e.2 acc (hl e (by simp)) hacc) x hx

theorem mapM_ok_forall {α β : Type} {f : α → Except String β} :
    ∀ {l : List α} {r : List β}, l.mapM f = .ok r →
      List.Forall₂ (fun a b => f a = .ok b) l r := by
  intro l
  induction l with
  | nil =>
    intro r h
    simp only [List.mapM_nil] at h
    injection h with h
    subst h
    exact List.Forall₂.nil
  | cons a as ih =>
    intro r h
    simp only [List.mapM_cons] at h
    rw [show (pure : List β → Except String (List β)) = Except.ok from rfl] at h
    rcases exceptBind_ok.mp h with ⟨b, hb, h2⟩
    rcases exceptBind_ok.mp h2 with ⟨bs, hbs, h3⟩
    injection h3 with h3
    subst h3
    exact List.Forall₂.cons hb (ih hbs)

/-! ## Claim C1: islandora integer predicates -/

/-- **C1** (counterexample): the claim says the islandora integer
predicates are derived by stripping all non-digit characters and
parsing the remainder, so that `"001a"` yields `Some(1)` rather than
failing.  The code (`RelsExt::process_element`) instead calls
`text.parse().unwrap()`: on the inner text `"001a"` processing an
`islandora:isPageNumber` element panics, while the claimed lenient
parse of `"001a"` is `Some(1)`. -/
theorem c1_counterexample :
    processElement {}
        { name := "islandora:isPageNumber", attributes := [], text := some "001a" }
      = .error "isPageNumber: text.parse().unwrap() failed"
    ∧ lenientParseInt "001a" = some 1 := by
  constructor
  · decide
  · decide

/-- **C1** (amended): for each islandora integer predicate
(`isPageNumber`, `isSection`, `isSequenceNumber`) the element's inner
text is parsed strictly (`str::parse::<usize>`, no character
stripping): processing records exactly the strictly parsed value, and
panics when the strict parse fails (so an input like `"001a"` aborts
instead of yielding `Some(1)` or `None`). -/
theorem c1_strict_integer_parse (r : RelsExt) (t : String) :
    (processElement r { name := "islandora:isPageNumber", attributes := [], text := some t }
       = match parseUsize t with
         | some n => .ok { r with isPageNumber := some n }
         | none => .error "isPageNumber: text.parse().unwrap() failed")
    ∧ (processElement r { name := "islandora:isSection", attributes := [], text := some t }
       = match parseUsize t with
         | some n => .ok { r with isSection := some n }
         | none => .error "isSection: text.parse().unwrap() failed")
    ∧ (processElement r { name := "islandora:isSequenceNumber", attributes := [], text := some t }
       = match parseUsize t with
         | some n => .ok { r with isSequenceNumber := some n }
         | none => .error "isSequenceNumber: text.parse().unwrap() failed") := by
  refine ⟨?_, ?_, ?_⟩ <;>
    · simp only [processElement, getText, isSequenceNumberOfElement]
      norm_num
      cases h : parseUsize t <;> simp [h, Except.bind, Bind.bind]

/-! ## Claim C5: the should-migrate predicates -/

/-- **C5**: a `(src, dest)` pair is migrated exactly when the
destination does not exist, or (checksum mode) the CRC-32s differ, or
(default mode) the byte lengths or modification times differ; content
migration uses the same predicate except that its non-checksum mode
compares only the byte length.  `migrate_by_copy`/`migrate_content`
skip exactly when the predicate is false. -/
theorem c5_should_migrate (src : FileData) (content : List Nat)
    (dest : Option FileData) (checksum : Bool) :
    (shouldMigrateFile src dest checksum = true ↔
      (dest = none
       ∨ (checksum = true ∧ ∃ d, dest = some d ∧ crc32 src.bytes ≠ crc32 d.bytes)
       ∨ (checksum = false ∧ ∃ d, dest = some d ∧
            (src.bytes.length ≠ d.bytes.length ∨ src.mtime ≠ d.mtime))))
    ∧ (shouldMigrateContent content dest checksum = true ↔
      (dest = none
       ∨ (checksum = true ∧ ∃ d, dest = some d ∧ crc32 content ≠ crc32 d.bytes)
       ∨ (checksum = false ∧ ∃ d, dest = some d ∧ content.length ≠ d.bytes.length)))
    ∧ (migrateByCopy src dest checksum = .Skipped ↔
        shouldMigrateFile src dest checksum = false)
    ∧ (migrateContent content dest checksum = .Skipped ↔
        shouldMigrateContent content dest checksum = false) := by
  refine ⟨?_, ?_, ?_, ?_⟩
  · cases dest with
    | none => simp [shouldMigrateFile]
    | some d =>
      cases checksum <;>
        simp [shouldMigrateFile, Decidable.not_iff_not, or_comm]
  · cases dest with
    | none => simp [shouldMigrateContent]
    | some d =>
      cases checksum <;>
        simp [shouldMigrateContent, Decidable.not_iff_not, or_comm]
  · unfold migrateByCopy migrationOutcome
    cases h : shouldMigrateFile src dest checksum <;>
      cases hd : dest.isSome <;> simp
  · unfold migrateContent migrationOutcome
    cases h : shouldMigrateContent content dest checksum <;>
      cases hd : dest.isSome <;> simp

/-! ## Helper lemmas: inversion of `Object::new` and `NodeRow::new` -/

theorem nodeRow_new_fields {o : Object} {row : NodeRow}
    (h : NodeRow.new o = .ok row) :
    row.pid = o.pid ∧ row.weight = (o.weight.map toString).getD "" := by
  unfold NodeRow.new at h
  rcases exceptBind_ok.mp h with ⟨m, _, h2⟩
  injection h2 with h2
  subst h2
  exact ⟨rfl, rfl⟩

theorem object_new_inversion {foxml : Foxml} {dsPaths : DatastreamMap}
    {relsParse : String → Option RelsExt} {o : Object}
    (h : Object.new foxml dsPaths relsParse = .ok o) :
    ∃ r, Object.relsExtOf foxml dsPaths relsParse = .ok r
      ∧ o.weight = Object.weightOf r
      ∧ Object.modelOf r = .ok o.model
      ∧ o.parents = Object.parentsOf r
      ∧ o.pid = foxml.pid := by
  unfold Object.new at h
  rcases exceptBind_ok.mp h with ⟨r, hr, h⟩
  rcases exceptBind_ok.mp h with ⟨ownerId, _, h⟩
  rcases exceptBind_ok.mp h with ⟨label, _, h⟩
  rcases exceptBind_ok.mp h with ⟨model, hmodel, h⟩
  rcases exceptBind_ok.mp h with ⟨createdDate, _, h⟩
  rcases exceptBind_ok.mp h with ⟨modifiedDate, _, h⟩
  rcases exceptBind_ok.mp h with ⟨state, _, h⟩
  rcases exceptBind_ok.mp h with ⟨datastreams, _, h⟩
  injection h with h
  subst h
  exact ⟨r, hr, rfl, hmodel, rfl, rfl⟩

/-! ## Claim C3: weight precedence in nodes.csv -/

/-- **C3**: for an object built from its FOXML and RELS-EXT, the weight
cell of its nodes.csv row is `isPageNumber` if present, otherwise
`isSequenceNumber` if present, otherwise the integer of the first
`isSequenceNumberOf` tuple, otherwise the empty string.  (The weight
selection itself is modelled from the spec: the copy of `object.rs` in
the sources predates the `weight` field that `rows.rs` reads.) -/
theorem c3_weight_precedence {foxml : Foxml} {dsPaths : DatastreamMap}
    {relsParse : String → Option RelsExt} {o : Object} {row : NodeRow}
    {r : RelsExt}
    (hO : Object.new foxml dsPaths relsParse = .ok o)
    (hR : Object.relsExtOf foxml dsPaths relsParse = .ok r)
    (hN : NodeRow.new o = .ok row) :
    row.weight =
      match r.isPageNumber, r.isSequenceNumber, r.isSequenceNumberOf.head? with
      | some n, _, _ => toString n
      | none, some n, _ => toString n
      | none, none, some p => toString p.2
      | none, none, none => "" := by
  rcases object_new_inversion hO with ⟨r', hr', hw, _, _, _⟩
  rw [hR] at hr'
  injection hr' with hr'
  subst hr'
  rcases nodeRow_new_fields hN with ⟨_, hweight⟩
  rw [hweight, hw]
  unfold Object.weightOf
  cases r.isPageNumber with
  | some n => rfl
  | none =>
    cases r.isSequenceNumber with
    | some n => rfl
    | none =>
      cases r.isSequenceNumberOf with
      | nil => rfl
      | cons p ps => rfl

/-- **C3** (witness): the fixture pipeline evaluated end to end; its
RELS-EXT has `isPageNumber = Some(2)`, so the nodes.csv weight cell is
`"2"`. -/
theorem c3_weight_precedence_witness :
    Object.new fxFoxml fxPaths fxParse = .ok fxObject
    ∧ Object.relsExtOf fxFoxml fxPaths fxParse = .ok fxRels
    ∧ NodeRow.new fxObject = .ok fxRow
    ∧ fxRow.weight = "2" :=
  ⟨by decide, by decide, by decide,
   @c3_weight_precedence fxFoxml fxPaths fxParse fxObject fxRow fxRels
     (by decide) (by decide) (by decide)⟩

/-! ## Claim C2: object-map exclusions and RELS-EXT absence -/

theorem collectResults_mem :
    ∀ {l : List (Except FoxmlError (String × Object))}
      {pairs : List (String × Object)},
      collectResults l = .ok pairs → ∀ p ∈ pairs, Except.ok p ∈ l := by
  intro l
  induction l with
  | nil =>
    intro pairs h p hp
    simp only [collectResults] at h
    injection h with h
    subst h
    cases hp
  | cons x xs ih =>
    intro pairs h p hp
    cases x with
    | error e =>
      simp only [collectResults] at h
      exact Except.noConfusion h
    | ok q =>
      simp only [collectResults] at h
      rcases exceptBind_ok.mp h with ⟨ps, hps, h2⟩
      injection h2 with h2
      subst h2
      rcases List.mem_cons.mp hp with rfl | hmem
      · exact List.mem_cons_self _ _
      · exact List.mem_cons_of_mem _ (ih hps p hmem)

theorem keepResults_cond :
    ∀ {l kept : List (Except FoxmlError (String × Object))},
      keepResults l = .ok kept →
      ∀ x ∈ kept, ∃ pid o, x = .ok (pid, o) ∧
        (o.isSystemObject || o.isContentModel) = false := by
  intro l
  induction l with
  | nil =>
    intro kept h x hx
    simp only [keepResults] at h
    injection h with h
    subst h
    cases hx
  | cons r rs ih =>
    intro kept h x hx
    cases r with
    | error e =>
      simp only [keepResults] at h
      exact Except.noConfusion h
    | ok q =>
      simp only [keepResults] at h
      rcases exceptBind_ok.mp h with ⟨ks, hks, h2⟩
      by_cases hq : (q.2.isSystemObject || q.2.isContentModel) = false
      · rw [show (!(q.2.isSystemObject || q.2.isContentModel)) = true by
            rw [hq]; rfl] at h2
        simp only [if_true] at h2
        injection h2 with h2
        subst h2
        rcases List.mem_cons.mp hx with rfl | hmem
        · exact ⟨q.1, q.2, rfl, hq⟩
        · exact ih hks x hmem
      · rw [show (!(q.2.isSystemObject || q.2.isContentModel)) = false by
            revert hq
            cases (q.2.isSystemObject || q.2.isContentModel) <;> simp] at h2
        simp only [if_false, Bool.false_eq_true] at h2
        injection h2 with h2
        subst h2
        exact ih hks x hx

/-- **C2** (counterexample): a FOXML whose RELS-EXT datastream is
absent makes `ObjectMap::from_path` panic (`unwrap` of the missing
datastream) instead of constructing the object with `model = ""` and
dropping it: the map is never produced. -/
theorem c2_counterexample :
    objectMapFromPath [.ok fxFoxmlNoRels] [] (fun _ => none)
      = .error "find RELS-EXT datastream: unwrap failed" := by
  decide

/-- **C2** (amended): the constructed object map excludes system
objects (PID starts with `fedora-system:`) and content-model objects
(`model == "fedora-system:ContentModel-3.0"`); but an object whose
RELS-EXT datastream is absent panics (`unwrap`) instead of being
tolerated, and an object lacking `hasModel` is never constructed (the
`hasModel.first().unwrap()` panics), so no missing-model filter is
involved. -/
theorem c2_object_map_exclusions :
    (∀ (parses : List (Except FoxmlError Foxml)) (dsPaths : DatastreamMap)
       (relsParse : String → Option RelsExt) (m : List (String × Object)),
       objectMapFromPath parses dsPaths relsParse = .ok m →
       ∀ e ∈ m, e.2.isSystemObject = false ∧ e.2.isContentModel = false)
    ∧ (∀ (foxml : Foxml) (dsPaths : DatastreamMap)
         (relsParse : String → Option RelsExt),
       foxml.datastreams.find? (fun d => d.id = "RELS-EXT") = none →
       Object.new foxml dsPaths relsParse
         = .error "find RELS-EXT datastream: unwrap failed")
    ∧ (∀ (foxml : Foxml) (dsPaths : DatastreamMap)
         (relsParse : String → Option RelsExt) (o : Object),
       Object.new foxml dsPaths relsParse = .ok o →
       ∃ r, Object.relsExtOf foxml dsPaths relsParse = .ok r
         ∧ r.hasModel ≠ []) := by
  refine ⟨?_, ?_, ?_⟩
  · intro parses dsPaths relsParse m h e he
    unfold objectMapFromPath at h
    rcases exceptBind_ok.mp h with ⟨results, _, h⟩
    rcases exceptBind_ok.mp h with ⟨kept, hkept, h⟩
    rcases exceptBind_ok.mp h with ⟨pairs, hpairs, h⟩
    injection h with h
    subst h
    have hall : ∀ x ∈ pairs,
        ((x : String × Object).2.isSystemObject = false
          ∧ x.2.isContentModel = false) := by
      intro p hp
      have hmem := collectResults_mem hpairs p hp
      rcases keepResults_cond hkept _ hmem with ⟨pid, o, heq, hcond⟩
      injection heq with heq
      have h2 : p.2 = o := by rw [heq]
      rw [h2]
      revert hcond
      cases o.isSystemObject <;> cases o.isContentModel <;> simp
    exact @mapFromList_forall _ _
      (fun o => o.isSystemObject = false ∧ o.isContentModel = false)
      alphanumCompareStr pairs hall e he
  · intro foxml dsPaths relsParse h
    unfold Object.new Object.relsExtOf
    rw [h]
    rfl
  · intro foxml dsPaths relsParse o h
    rcases object_new_inversion h with ⟨r, hr, _, hmodel, _, _⟩
    refine ⟨r, hr, ?_⟩
    intro hempty
    unfold Object.modelOf at hmodel
    rw [hempty] at hmodel
    cases hmodel

/-- **C2** (witness): the fixture FOXML parses into a singleton map
whose only object is neither a system object nor a content model; the
RELS-EXT-less FOXML panics; the constructed fixture object has a
non-empty `hasModel`. -/
theorem c2_object_map_exclusions_witness :
    (objectMapFromPath [.ok fxFoxml] fxPaths fxParse = .ok [("ns:1", fxObject)]
      ∧ fxObject.isSystemObject = false ∧ fxObject.isContentModel = false)
    ∧ fxFoxmlNoRels.datastreams.find? (fun d => d.id = "RELS-EXT") = none
    ∧ Object.new fxFoxmlNoRels [] (fun _ => none)
        = .error "find RELS-EXT datastream: unwrap failed"
    ∧ ∃ r, Object.relsExtOf fxFoxml fxPaths fxParse = .ok r ∧ r.hasModel ≠ [] :=
  ⟨⟨by decide,
    c2_object_map_exclusions.1 [.ok fxFoxml] fxPaths fxParse [("ns:1", fxObject)]
      (by decide) ("ns:1", fxObject) (by decide)⟩,
   by decide,
   c2_object_map_exclusions.2.1 fxFoxmlNoRels [] (fun _ => none) (by decide),
   c2_object_map_exclusions.2.2 fxFoxml fxPaths fxParse fxObject (by decide)⟩

/-! ## Claim C4: FOXML parse-error handling -/

theorem objectsStage1_fold_failures :
    ∀ (l : List (String × Except FoxmlError Foxml))
      (acc : List (String × (String × Foxml)) × List (String × FoxmlError)),
      (l.foldl objectsStage1Step acc).2
        = acc.2 ++ l.filterMap (fun pf =>
            match pf.2 with
            | .error e => some (pf.1, e)
            | .ok _ => none) := by
  intro l
  induction l with
  | nil => intro acc; simp
  | cons pf pfs ih =>
    intro acc
    simp only [List.foldl_cons, List.filterMap_cons]
    cases hpf : pf.2 with
    | ok foxml =>
      rw [ih]
      simp [objectsStage1Step, hpf]
    | error e =>
      rw [ih]
      simp [objectsStage1Step, hpf]

theorem objectsStage1_fold_map {P : (String × Foxml) → Prop} :
    ∀ (l : List (String × Except FoxmlError Foxml))
      (acc : List (String × (String × Foxml)) × List (String × FoxmlError)),
      (∀ x ∈ acc.1, P x.2) →
      (∀ pf ∈ l, ∀ f, pf.2 = .ok f → P (pf.1, f)) →
      ∀ x ∈ (l.foldl objectsStage1Step acc).1, P x.2 := by
  intro l
  induction l with
  | nil =>
    intro acc hacc _ x hx
    exact hacc x hx
  | cons pf pfs ih =>
    intro acc hacc hl x hx
    simp only [List.foldl_cons] at hx
    cases hpf : pf.2 with
    | ok foxml =>
      have hx' : x ∈ (pfs.foldl objectsStage1Step
          (insertB alphanumCompareStr foxml.pid (pf.1, foxml) acc.1, acc.2)).1 := by
        simpa [objectsStage1Step, hpf] using hx
      exact ih _
        (fun y hy => @insertB_forall _ _ P alphanumCompareStr foxml.pid
          (pf.1, foxml) acc.1 (hl pf (by simp) foxml hpf) hacc y hy)
        (fun q hq f hf => hl q (by simp [hq]) f hf) x hx'
    | error e =>
      have hx' : x ∈ (pfs.foldl objectsStage1Step (acc.1, acc.2 ++ [(pf.1, e)])).1 := by
        simpa [objectsStage1Step, hpf] using hx
      exact ih (acc.1, acc.2 ++ [(pf.1, e)]) hacc
        (fun q hq f hf => hl q (by simp [hq]) f hf) x hx'

theorem mapM_error_of_mem {α β : Type} {f : α → Except String β}
    {l : List α} {a : α} (ha : a ∈ l)
    (hf : ∀ b, f a ≠ .ok b) :
    ∀ r, l.mapM f ≠ .ok r := by
  induction l with
  | nil => cases ha
  | cons x xs ih =>
    intro r h
    simp only [List.mapM_cons] at h
    rw [show (pure : List β → Except String (List β)) = Except.ok from rfl] at h
    rcases exceptBind_ok.mp h with ⟨b, hb, h2⟩
    rcases exceptBind_ok.mp h2 with ⟨bs, hbs, _⟩
    rcases List.mem_cons.mp ha with rfl | hmem
    · exact hf b hb
    · exact ih hmem bs hbs

/-- **C4** (counterexample): during stage-2 object-graph assembly a
single unparsable FOXML aborts the run (the filter of
`ObjectMap::from_path` unwraps the `Err`), contradicting the claim
that parse errors are collected and the object skipped in both
batches. -/
theorem c4_counterexample :
    objectMapFromPath [.error "invalid xml"] [] (fun _ => none)
      = .error "Result::unwrap() on an Err value" := by
  decide

/-- **C4** (amended): during stage-1 validation
(`identifiers::objects`) parse errors are collected per path and
reported after the batch — the error list is exactly the failing
`(path, error)` pairs, every map entry comes from a successfully
parsed file, and no input aborts; but during stage-2 assembly
(`ObjectMap::from_path`) any FOXML parse error in the batch makes the
run abort. -/
theorem c4_parse_error_handling :
    (∀ files : List (String × Except FoxmlError Foxml),
       (objectsStage1 files).2
         = files.filterMap (fun pf =>
             match pf.2 with
             | .error e => some (pf.1, e)
             | .ok _ => none)
       ∧ ∀ x ∈ (objectsStage1 files).1, (x.2.1, Except.ok x.2.2) ∈ files)
    ∧ (∀ (parses : List (Except FoxmlError Foxml)) (dsPaths : DatastreamMap)
         (relsParse : String → Option RelsExt) (e : FoxmlError),
       Except.error e ∈ parses →
       ∃ msg, objectMapFromPath parses dsPaths relsParse = .error msg) := by
  constructor
  · intro files
    constructor
    · have := objectsStage1_fold_failures files ([], [])
      simpa [objectsStage1] using this
    · intro x hx
      exact @objectsStage1_fold_map
        (fun v => (v.1, Except.ok v.2) ∈ files) files ([], [])
        (by intro y hy; cases hy)
        (by
          intro pf hpf f hf
          have : pf = (pf.1, Except.ok f) := by
            cases pf with
            | mk a b => simp only at hf; rw [hf]
          rw [← this]
          exact hpf)
        x hx
  · intro parses dsPaths relsParse e he
    cases hres : objectMapFromPath parses dsPaths relsParse with
    | error msg => exact ⟨msg, rfl⟩
    | ok m =>
      exfalso
      unfold objectMapFromPath at hres
      rcases exceptBind_ok.mp hres with ⟨results, hresults, h1⟩
      rcases exceptBind_ok.mp h1 with ⟨kept, hkept, h2⟩
      have hmem : Except.error e ∈ results := by
        have hforall := mapM_ok_forall hresults
        clear hresults h1 h2 hres hkept
        induction hforall with
        | nil => cases he
        | cons hpq hrest ihh =>
          rcases List.mem_cons.mp he with rfl | hmem2
          · simp only [objectResult] at hpq
            injection hpq with hpq
            rw [← hpq]
            exact List.mem_cons_self _ _
          · exact List.mem_cons_of_mem _ (ihh hmem2)
      clear hresults h1 h2 hres he
      induction results generalizing kept with
      | nil => cases hmem
      | cons r rs ihr =>
        cases r with
        | error e2 =>
          simp only [keepResults] at hkept
          exact Except.noConfusion hkept
        | ok q =>
          rcases List.mem_cons.mp hmem with heq | hmem2
          · exact Except.noConfusion heq
          · simp only [keepResults] at hkept
            rcases exceptBind_ok.mp hkept with ⟨ks, hks, _⟩
            exact ihr ks hks hmem2

/-- **C4** (witness): a batch containing one good FOXML and one parse
error; the membership hypothesis of the stage-2 part is discharged
concretely, and the run aborts. -/
theorem c4_parse_error_handling_witness :
    Except.error "bad" ∈
        ([Except.ok fxFoxml, Except.error "bad"] : List (Except FoxmlError Foxml))
    ∧ ∃ msg, objectMapFromPath [Except.ok fxFoxml, Except.error "bad"]
        fxPaths fxParse = Except.error msg :=
  ⟨by decide,
   c4_parse_error_handling.2 [Except.ok fxFoxml, Except.error "bad"]
     fxPaths fxParse "bad" (by decide)⟩

/-! ## Claim C6: latest-version selection -/

theorem reverse_drop_one_reverse (l : List α) :
    (l.reverse.drop 1).reverse = l.dropLast := by
  rw [List.drop_one, List.tail_reverse, List.reverse_reverse]

theorem mapM_ok_of_forall {α β : Type} {f : α → Except String β} :
    ∀ {l : List α}, (∀ a ∈ l, ∃ b, f a = .ok b) →
      ∃ r, l.mapM f = .ok r ∧ List.Forall₂ (fun a b => f a = .ok b) l r := by
  intro l
  induction l with
  | nil => intro _; exact ⟨[], rfl, List.Forall₂.nil⟩
  | cons a as ih =>
    intro h
    rcases h a (by simp) with ⟨b, hb⟩
    rcases ih (fun x hx => h x (by simp [hx])) with ⟨r, hr, hforall⟩
    refine ⟨b :: r, ?_, List.Forall₂.cons hb hforall⟩
    simp only [List.mapM_cons]
    rw [show (pure : List β → Except String (List β)) = Except.ok from rfl]
    rw [exceptBind_ok]
    exact ⟨b, hb, by rw [exceptBind_ok]; exact ⟨r, hr, rfl⟩⟩

theorem createDatastream_sorted {pid : String} {fd : FoxmlDatastream}
    {dsPaths : DatastreamMap} {d : Datastream}
    (h : Object.createDatastream pid fd dsPaths = .ok d) :
    List.Chain' (fun a b : DatastreamVersion =>
      alphanumCompareStr a.id b.id ≠ .gt) d.versions := by
  unfold Object.createDatastream at h
  rcases exceptBind_ok.mp h with ⟨vs, _, h2⟩
  injection h2 with h2
  subst h2
  exact sortOrd_chain _ (fun a b hab => alphanumCompareStr_gt_iff_lt.mp hab) vs

/-- **C6**: for every datastream kept in the map with a non-empty,
alphanumerically sorted version list `v1…vk`: its `latest` is `vk`
(`versions.last()`), `previous_versions` contributes exactly
`v1…v(k-1)` (`dropLast`), media.csv carries one `MediaRow` per element
of `latest_versions` in order, and the version list produced by
`Object::create_datastream` is indeed sorted by id. -/
theorem c6_latest_and_previous_versions
    (fsLen : String → Option Nat) (objects : List Object)
    (h : ∀ o ∈ objects, ∀ d ∈ o.datastreams, d.versions ≠ []) :
    (∀ o ∈ objects, ∀ d ∈ o.datastreams, ∃ vk,
        d.latest? = some vk ∧ d.versions.dropLast ++ [vk] = d.versions)
    ∧ previousVersionsOf objects
        = objects.flatMap (fun o => o.datastreams.flatMap
            (fun d => d.versions.dropLast.map (fun v => (o, d, v))))
    ∧ (∃ rows, mediaRowsOf fsLen objects = .ok rows
        ∧ List.Forall₂ (fun t row => ∃ v, t.2.2 = some v
            ∧ row = MediaRow.new fsLen (t.1, t.2.1, v))
            (latestVersionsOf objects) rows)
    ∧ (∀ (pid : String) (fd : FoxmlDatastream) (dsPaths : DatastreamMap)
         (d : Datastream), Object.createDatastream pid fd dsPaths = .ok d →
         List.Chain' (fun a b : DatastreamVersion =>
           alphanumCompareStr a.id b.id ≠ .gt) d.versions) := by
  refine ⟨?_, ?_, ?_, ?_⟩
  · intro o ho d hd
    have hne := h o ho d hd
    refine ⟨d.versions.getLast hne, ?_, List.dropLast_append_getLast hne⟩
    unfold Datastream.latest?
    exact List.getLast?_eq_getLast _ hne
  · unfold previousVersionsOf
    simp only [reverse_drop_one_reverse]
  · have hsome : ∀ t ∈ latestVersionsOf objects, ∃ row,
        (match t.2.2 with
         | some v => Except.ok (MediaRow.new fsLen (t.1, t.2.1, v))
         | none => Except.error "versions.last().unwrap() failed")
          = Except.ok row := by
      intro t ht
      unfold latestVersionsOf at ht
      rcases List.mem_flatMap.mp ht with ⟨o, ho, hmem⟩
      rcases List.mem_map.mp hmem with ⟨d, hd, heq⟩
      subst heq
      have hne := h o ho d hd
      simp only [Datastream.latest?]
      rw [List.getLast?_eq_getLast _ hne]
      exact ⟨_, rfl⟩
    rcases mapM_ok_of_forall hsome with ⟨rows, hrows, hforall⟩
    refine ⟨rows, hrows, ?_⟩
    refine hforall.imp ?_
    intro t row hrel
    cases hv : t.2.2 with
    | some v =>
      rw [hv] at hrel
      injection hrel with hrel
      exact ⟨v, rfl, hrel.symm⟩
    | none =>
      rw [hv] at hrel
      cases hrel
  · intro pid fd dsPaths d hc
    exact createDatastream_sorted hc

/-- **C6** (witness): the fixture object has one datastream with a
single version, so `previous_versions` is empty and `latest` is that
version. -/
theorem c6_latest_and_previous_versions_witness :
    (∀ o ∈ [fxObject], ∀ d ∈ o.datastreams, d.versions ≠ [])
    ∧ previousVersionsOf [fxObject] = []
    ∧ (∀ o ∈ [fxObject], ∀ d ∈ o.datastreams, ∃ vk,
        d.latest? = some vk ∧ d.versions.dropLast ++ [vk] = d.versions) :=
  ⟨by decide,
   by
     have h2 := (c6_latest_and_previous_versions (fun _ => none) [fxObject]
       (by decide)).2.1
     rw [h2]
     decide,
   (c6_latest_and_previous_versions (fun _ => none) [fxObject] (by decide)).1⟩

/-! ## Claim C7: identifier codec round-trip -/

theorem safeChar_ne_pct {c : Char} (h : safeChar c = true) : c ≠ '%' := by
  intro hc
  subst hc
  exact absurd h (by decide)

theorem starts3A_of_head_ne {c : Char} (h : c ≠ '%') (cs : List Char) :
    starts3A (c :: cs) = false := by
  cases cs with
  | nil => rfl
  | cons c2 cs2 =>
    cases cs2 with
    | nil => rfl
    | cons c3 cs3 => simp [starts3A, h]

theorem lastSplit3A_cons_none {c : Char} {cs : List Char}
    (h : lastSplit3A cs = none) (h2 : starts3A (c :: cs) = false) :
    lastSplit3A (c :: cs) = none := by
  simp [lastSplit3A, h, h2]

theorem lastSplit3A_cons_inv {c : Char} {cs : List Char}
    (h : lastSplit3A (c :: cs) = none) : lastSplit3A cs = none := by
  cases hcs : lastSplit3A cs with
  | none => rfl
  | some p =>
    simp [lastSplit3A, hcs] at h

theorem encFrag_no3A :
    ∀ l : List Char, (∀ c ∈ l, safeChar c = true) →
      lastSplit3A (encFrag l) = none := by
  intro l
  induction l with
  | nil => intro _; rfl
  | cons c cs ih =>
    intro h
    have hcs := ih (fun x hx => h x (by simp [hx]))
    have hc := h c (by simp)
    by_cases hu : c = '_'
    · subst hu
      simp only [encFrag, if_pos rfl]
      apply lastSplit3A_cons_none
      · apply lastSplit3A_cons_none
        · exact lastSplit3A_cons_none hcs (starts3A_of_head_ne (by decide) _)
        · exact starts3A_of_head_ne (by decide) _
      · cases hrest : encFrag cs with
        | nil => rfl
        | cons a as => simp [starts3A]
    · simp only [encFrag, if_neg hu]
      exact lastSplit3A_cons_none hcs
        (starts3A_of_head_ne (safeChar_ne_pct hc) _)

theorem lastSplit3A_append :
    ∀ a b : List Char, lastSplit3A a = none → lastSplit3A b = none →
      lastSplit3A (a ++ '%' :: '3' :: 'A' :: b) = some (a, b) := by
  intro a
  induction a with
  | nil =>
    intro b _ hb
    have h1 : lastSplit3A ('A' :: b) = none :=
      lastSplit3A_cons_none hb (starts3A_of_head_ne (by decide) _)
    have h2 : lastSplit3A ('3' :: 'A' :: b) = none :=
      lastSplit3A_cons_none h1 (starts3A_of_head_ne (by decide) _)
    show lastSplit3A ('%' :: '3' :: 'A' :: b) = some ([], b)
    rw [lastSplit3A, h2]
    simp [starts3A]
  | cons c a' ih =>
    intro b ha hb
    have ha' : lastSplit3A a' = none := lastSplit3A_cons_inv ha
    have := ih b ha' hb
    simp [lastSplit3A, this]

theorem decFrag_cons {c : Char} (h : c ≠ '%') (cs : List Char) :
    decFrag (c :: cs) = c :: decFrag cs := by
  cases cs with
  | nil => rfl
  | cons c2 cs2 =>
    cases cs2 with
    | nil => rfl
    | cons c3 cs3 => simp [decFrag, h]

theorem decFrag_encFrag :
    ∀ l : List Char, (∀ c ∈ l, c ≠ '%') → decFrag (encFrag l) = l := by
  intro l
  induction l with
  | nil => intro _; rfl
  | cons c cs ih =>
    intro h
    have hcs := ih (fun x hx => h x (by simp [hx]))
    by_cases hu : c = '_'
    · subst hu
      simp only [encFrag, if_pos rfl]
      simp [decFrag, hcs]
    · simp only [encFrag, if_neg hu]
      rw [decFrag_cons (h c (by simp)) _, hcs]

theorem isPrefixOf_append (p r : List Char) : p.isPrefixOf (p ++ r) = true := by
  induction p with
  | nil => simp [List.isPrefixOf]
  | cons a ps ih => simp [List.isPrefixOf, ih]

theorem splitObjectPfx_of_prefix :
    ∀ s : List Char, "info%3Afedora%2F".toList.isPrefixOf s = true →
      splitObjectPfx s = some (s.drop 16) := by
  intro s h
  cases s with
  | nil => simp [List.isPrefixOf] at h
  | cons c cs =>
    simp only [splitObjectPfx]
    rw [h]
    simp

/-- **C7**: for every PID `ns:local` of safe characters, the encoded
object-store filename decodes back to the original PID:
`ObjectIdentifier::from_path` (regex match, then the `%5F → _` decode
table over the captured fragments) recovers `ns:local`, and the `%5F`
decode inverts the `_` encode on each fragment. -/
theorem c7_identifier_round_trip (ns local_ : String)
    (h1 : ∀ c ∈ ns.toList, safeChar c = true)
    (h2 : ∀ c ∈ local_.toList, safeChar c = true) :
    objectIdentifierFromFileName (encodeObjectFileName ns local_)
      = some (ns ++ ":" ++ local_)
    ∧ decFrag (encFrag ns.toList) = ns.toList
    ∧ decFrag (encFrag local_.toList) = local_.toList := by
  have hd1 : decFrag (encFrag ns.toList) = ns.toList :=
    decFrag_encFrag _ (fun c hc => safeChar_ne_pct (h1 c hc))
  have hd2 : decFrag (encFrag local_.toList) = local_.toList :=
    decFrag_encFrag _ (fun c hc => safeChar_ne_pct (h2 c hc))
  refine ⟨?_, hd1, hd2⟩
  unfold objectIdentifierFromFileName encodeObjectFileName
  have htl : (String.mk ("info%3Afedora%2F".toList ++ encFrag ns.toList ++
      "%3A".toList ++ encFrag local_.toList)).toList
      = "info%3Afedora%2F".toList ++
        (encFrag ns.toList ++ '%' :: '3' :: 'A' :: encFrag local_.toList) := by
    show ("info%3Afedora%2F".toList ++ encFrag ns.toList ++
        "%3A".toList ++ encFrag local_.toList)
      = "info%3Afedora%2F".toList ++
        (encFrag ns.toList ++ '%' :: '3' :: 'A' :: encFrag local_.toList)
    simp [List.append_assoc]
  rw [htl]
  have hsplit := splitObjectPfx_of_prefix
    ("info%3Afedora%2F".toList ++
      (encFrag ns.toList ++ '%' :: '3' :: 'A' :: encFrag local_.toList))
    (isPrefixOf_append _ _)
  have hlen : ("info%3Afedora%2F".toList).length = 16 := by decide
  rw [show ("info%3Afedora%2F".toList ++
      (encFrag ns.toList ++ '%' :: '3' :: 'A' :: encFrag local_.toList)).drop 16
      = encFrag ns.toList ++ '%' :: '3' :: 'A' :: encFrag local_.toList by
    rw [← hlen, List.drop_left]] at hsplit
  rw [hsplit]
  have hlast := lastSplit3A_append (encFrag ns.toList) (encFrag local_.toList)
    (encFrag_no3A _ h1) (encFrag_no3A _ h2)
  simp only [Option.bind_eq_bind, Option.some_bind, hlast]
  rw [hd1, hd2]
  congr 1
  cases ns with
  | mk nsd =>
    cases local_ with
    | mk ld =>
      show String.mk (nsd ++ ':' :: ld) = String.mk ((nsd ++ [':']) ++ ld)
      rw [List.append_assoc]
      rfl

/-- **C7** (witness): the PID `ns:a_1` (with an underscore, exercising
the `%5F` table) round-trips through the encoded filename
`info%3Afedora%2Fns%3Aa%5F1`. -/
theorem c7_identifier_round_trip_witness :
    (∀ c ∈ "ns".toList, safeChar c = true)
    ∧ (∀ c ∈ "a_1".toList, safeChar c = true)
    ∧ objectIdentifierFromFileName (encodeObjectFileName "ns" "a_1")
        = some ("ns" ++ ":" ++ "a_1")
    ∧ encodeObjectFileName "ns" "a_1" = "info%3Afedora%2Fns%3Aa%5F1" :=
  ⟨by decide, by decide,
   (c7_identifier_round_trip "ns" "a_1" (by decide) (by decide)).1,
   by decide⟩

/-! ## Claim C8: nodes.csv follows map order, strictly increasing pids -/

theorem forall₂_map_eq {α β γ : Type} {R : α → β → Prop} {proj : β → γ}
    {g : α → γ} (hp : ∀ a b, R a b → proj b = g a) :
    ∀ {l : List α} {r : List β}, List.Forall₂ R l r →
      r.map proj = l.map g := by
  intro l r h
  induction h with
  | nil => rfl
  | cons hab _ ih => simp [List.map_cons, hp _ _ hab, ih]

/-- **C8**: the rows of nodes.csv are emitted in map iteration order —
their pid column equals the key column of the PID-sorted map — and
that column is strictly increasing under the alphanumeric comparator.
(The hypothesis `hwf` says the map stores each object under its own
pid, which holds whenever no two distinct inserted pids compare
equal.) -/
theorem c8_nodes_sorted (pairs : List (String × Object)) (rows : List NodeRow)
    (hwf : ∀ e ∈ mapFromList alphanumCompareStr pairs, e.1 = e.2.pid)
    (hrows : nodeRowsOf ((mapFromList alphanumCompareStr pairs).map Prod.snd)
      = .ok rows) :
    rows.map NodeRow.pid = (mapFromList alphanumCompareStr pairs).map Prod.fst
    ∧ List.Chain' (fun a b => alphanumCompareStr a b = .lt)
        (rows.map NodeRow.pid) := by
  have hkeys : List.Chain'
      (fun x y : String × Object => alphanumCompareStr x.1 y.1 = .lt)
      (mapFromList alphanumCompareStr pairs) :=
    mapFromList_chain _ (fun a b hab => alphanumCompareStr_gt_iff_lt.mp hab) pairs
  have hmap : rows.map NodeRow.pid
      = ((mapFromList alphanumCompareStr pairs).map Prod.snd).map Object.pid :=
    @forall₂_map_eq Object NodeRow String
      (fun o row => NodeRow.new o = .ok row) NodeRow.pid Object.pid
      (fun _ _ h => (nodeRow_new_fields h).1) _ _
      (mapM_ok_forall hrows)
  have hvals : ((mapFromList alphanumCompareStr pairs).map Prod.snd).map Object.pid
      = (mapFromList alphanumCompareStr pairs).map Prod.fst := by
    rw [List.map_map]
    exact List.map_congr_left (fun e he => (hwf e he).symm)
  constructor
  · rw [hmap, hvals]
  · rw [hmap, hvals]
    exact List.chain'_map_of_chain' Prod.fst (fun a b h => h) hkeys

/-- **C8** (witness): `item:10` and `item:2` inserted out of order; the
map iterates `item:2` first (digits compared as numbers) and the pid
column of the resulting nodes.csv rows is strictly increasing. -/
theorem c8_nodes_sorted_witness :
    (∀ e ∈ mapFromList alphanumCompareStr c8Pairs, e.1 = e.2.pid)
    ∧ nodeRowsOf ((mapFromList alphanumCompareStr c8Pairs).map Prod.snd)
        = .ok c8Rows
    ∧ c8Rows.map NodeRow.pid = ["item:2", "item:10"]
    ∧ List.Chain' (fun a b => alphanumCompareStr a b = .lt)
        (c8Rows.map NodeRow.pid) :=
  ⟨by decide, by decide, by decide,
   (c8_nodes_sorted c8Pairs c8Rows (by decide) (by decide)).2⟩

/-! ## Claim C9: script rows — de-duplication and sort -/

/-- **C9**: `aggregate_rows` emits the concatenation of `rows(pid)`
over the objects in map order, de-duplicated through the ordered set
and sorted alphanumerically on the `sort_by` column: the output
contains exactly the distinct rows of the concatenation (membership is
preserved), is duplicate-free, and is sorted on the chosen column. -/
theorem c9_script_rows (rowsOf : String → List Row) (pids : List String)
    (col : Nat)
    (hlen : ∀ p ∈ pids, ∀ r ∈ rowsOf p, col < r.length) :
    (aggregateRows rowsOf pids col).Nodup
    ∧ (∀ r, r ∈ aggregateRows rowsOf pids col ↔ r ∈ (pids.map rowsOf).flatten)
    ∧ List.Chain' (fun a b =>
        alphanumCompareStr (colKey a col) (colKey b col) ≠ .gt)
        (aggregateRows rowsOf pids col) := by
  have hset := setOfList_sorted_mem ((pids.map rowsOf).flatten)
  have hnodup : (setOfList ((pids.map rowsOf).flatten)).Nodup :=
    chain_lt_nodup hset.1
  have hperm : (aggregateRows rowsOf pids col).Perm
      (setOfList ((pids.map rowsOf).flatten)) :=
    sortOrd_perm _ _
  refine ⟨?_, ?_, ?_⟩
  · exact hperm.symm.nodup hnodup
  · intro r
    rw [hperm.mem_iff]
    exact hset.2 r
  · exact sortOrd_chain _
      (fun a b hab => alphanumCompareStr_gt_iff_lt.mp hab) _

/-- **C9** (witness): two objects each contributing the same row
twice; the output is de-duplicated and sorted alphanumerically on
column 0 (`item:2` before `item:10`). -/
theorem c9_script_rows_witness :
    (∀ p ∈ ["item:10", "item:2"], ∀ r ∈ c9RowsOf p, (0 : Nat) < r.length)
    ∧ aggregateRows c9RowsOf ["item:10", "item:2"] 0
        = [["item:2", "t"], ["item:10", "t"]]
    ∧ (aggregateRows c9RowsOf ["item:10", "item:2"] 0).Nodup :=
  ⟨by decide, by decide,
   (c9_script_rows c9RowsOf ["item:10", "item:2"] 0 (by decide)).1⟩
